import Mathlib

/-!
Verification of the cryptographic signing subsystem of the `pypep` Pasargad
payment client (`pypep/client.py`).

The development shallowly embeds:

* the request signer `Pasargad._make_sign` (JSON serialization, SHA-1,
  PKCS#1 v1.5 signing, base64 token encoding);
* the key loader `Pasargad._process_xml_node` and
  `Pasargad._convert_xml_key_to_pem` (DOM traversal, base64 decoding,
  big-endian integers, RSA key construction);
* the response handling of `Pasargad._request_builder`.

The client delegates cryptography to PyCryptodome; the relevant library
routines (`RSA.construct` with its consistency checks, `RsaKey._decrypt`
with blinding and CRT, `pkcs1_15` sign/verify, `bytes_to_long`,
`long_to_bytes`) and CPython's `json.dumps`, `base64.b64encode` /
`b64decode` are embedded faithfully from their implementations, since they
define the program's behaviour.  Machine integers do not occur: Python
integers are arbitrary precision, mirrored by `Nat`/`Int`.  Exceptions are
mirrored by `Except PyErr`.  File IO and XML text parsing are taken as
given input: the loader is modelled from the parsed DOM tree onward, and
the network transport of `_request_builder` is a parameter.  The blinding
randomness drawn inside `RsaKey._decrypt` is lifted to an explicit
parameter `r`.
-/

set_option maxRecDepth 1000000

/-- JSON-serializable Python values: the payload dicts the client signs and
the parsed response bodies it judges.  Dicts preserve insertion order, as
Python dicts do. -/
inductive JsonVal where
  | jstr (s : String)
  | jint (n : Int)
  | jbool (b : Bool)
  | jnull
  | jarr (elems : List JsonVal)
  | jobj (fields : List (String × JsonVal))

/-- Python exception values that the modelled code can raise.  The loader
`_convert_xml_key_to_pem` catches every exception and re-raises it wrapped
in `SystemExit(err)`; an `Except.error e` result of the loader therefore
models the process aborting with `SystemExit` carrying `e`. -/
inductive PyErr where
  /-- `IndexError: list index out of range`, from `[0]` on an empty
  `getElementsByTagName` result.  It carries no field name. -/
  | indexError
  /-- `binascii.Error` raised by `base64.b64decode`. -/
  | binasciiError
  /-- `ValueError` with its message. -/
  | valueError (msg : String)
  /-- `TypeError` with its message. -/
  | typeError (msg : String)
  /-- `KeyError` from a missing dict key. -/
  | keyError (key : String)
  /-- The client's own `ApiError(code, description)` exception;
  `description` is the (JSON) value of the response's `Message` field. -/
  | apiError (code : Nat) (description : JsonVal)

/-- Binary modular exponentiation, as CPython's three-argument `pow`.
The first argument is fuel; the exponent halves each step, so fuel `e`
suffices (see `powModAux_correct`). -/
def powModAux : Nat → Nat → Nat → Nat → Nat
  | 0, _, _, n => 1 % n
  | fuel+1, b, e, n =>
    if e = 0 then 1 % n
    else
      let h := powModAux fuel b (e / 2) n
      if e % 2 = 1 then h * h % n * b % n else h * h % n

/-- `powMod b e n` is `pow(b, e, n)`: `b ^ e % n` computed by binary
exponentiation. -/
def powMod (b e n : Nat) : Nat := powModAux e b e n

/-- Fuelled bit length; `bitLenAux fuel x` is the bit length of `x`
whenever `x ≤ fuel`. -/
def bitLenAux : Nat → Nat → Nat
  | 0, _ => 0
  | fuel+1, x => if x = 0 then 0 else bitLenAux fuel (x / 2) + 1

/-- `Crypto.Util.number.size(n)`: the bit length of `n` (0 for 0). -/
def bitLen (x : Nat) : Nat := bitLenAux x x

/-- `ceil_div(bits, 8)`, the byte length of a modulus as computed by
`pkcs1_15`: `k = ceil_div(size(n), 8)`. -/
def byteLength (n : Nat) : Nat := (bitLen n + 7) / 8

/-- `Crypto.Util.number.bytes_to_long`: big-endian bytes to integer. -/
def bytes_to_long (bs : List Nat) : Nat := bs.foldl (fun acc b => acc * 256 + b) 0

/-- Positional big-endian value, the specification-side reading of
`bytes_to_long`: most significant byte weighted by `256 ^ (len - 1)`. -/
def bigEndianVal : List Nat → Nat
  | [] => 0
  | b :: t => b * 256 ^ t.length + bigEndianVal t

/-- Minimal big-endian byte string of `x` (empty for 0); fuelled, fuel `x`
suffices. -/
def minBytesAux : Nat → Nat → List Nat
  | 0, _ => []
  | fuel+1, x => if x = 0 then [] else minBytesAux fuel (x / 256) ++ [x % 256]

/-- `Crypto.Util.number.long_to_bytes(x, blocksize)`: big-endian bytes of
`x`, left-padded with zero bytes to a multiple of `blocksize` (`x = 0`
yields one zero byte before padding, as in the library). -/
def long_to_bytes (x : Nat) (blocksize : Nat) : List Nat :=
  let m := if x = 0 then [0] else minBytesAux x x
  if blocksize = 0 then m
  else List.replicate ((blocksize - m.length % blocksize) % blocksize) 0 ++ m

/-- Fuelled extended Euclid.  `egcdAux fuel r0 r1 s0 t0 s1 t1` returns
`(g, s, t)` with `g = gcd r0 r1` and `g = s * r0' + t * n'` for the
original inputs, provided `r1 ≤ fuel` (see `egcdAux_correct`). -/
def egcdAux : Nat → Nat → Nat → Int → Int → Int → Int → (Nat × Int × Int)
  | 0, r0, _, s0, t0, _, _ => (r0, s0, t0)
  | fuel+1, r0, r1, s0, t0, s1, t1 =>
    if r1 = 0 then (r0, s0, t0)
    else
      let qt := r0 / r1
      egcdAux fuel r1 (r0 % r1) s1 t1 (s0 - qt * s1) (t0 - qt * t1)

/-- Extended Euclid: `egcd a n = (gcd a n, s, t)` with
`s * a + t * n = gcd a n`. -/
def egcd (a n : Nat) : Nat × Int × Int := egcdAux n a n 1 0 0 1

/-- PyCryptodome `Integer.inverse(self, n)`: the canonical modular inverse
in `[0, n)`.  The library raises `ValueError` when no inverse exists;
callers below perform that coprimality test explicitly before using this
value. -/
def pyinverse (a n : Nat) : Nat := (((egcd a n).2.1 % (n : Int) + n) % (n : Int)).toNat

/-- An RSA private key as PyCryptodome's `RsaKey` stores it: modulus `n`,
public exponent `e`, private exponent `d`, factors `p`, `q`, and the CRT
coefficient `u = p⁻¹ mod q`. -/
structure RsaKey where
  n : Nat
  e : Nat
  d : Nat
  p : Nat
  q : Nat
  u : Nat
deriving Repr, DecidableEq

/-- PyCryptodome `RSA.construct((n, e, d, p, q))` with the default
`consistency_check=True`.  The library first computes the CRT coefficient
`u = Integer(p).inverse(q)` (raising `ValueError` when `gcd(p, q) ≠ 1`),
then runs the consistency checks in order: `1 < e < n`; `n` odd;
`1 < d < n`; `p * q == n`; `p` and `q` prime (`test_probable_prime`,
modelled as exact primality); `e * d ≡ 1` modulo
`lcm(p-1, q-1) = (p-1)(q-1) / gcd(p-1, q-1)` (Carmichael, not Euler);
`1 < u < q` and `p * u ≡ 1 (mod q)`. -/
def construct (n e d p q : Nat) : Except PyErr RsaKey :=
  if Nat.gcd p q ≠ 1 then .error (.valueError "No inverse value can be computed")
  else
    let u := pyinverse p q
    if e ≤ 1 ∨ n ≤ e then .error (.valueError "Invalid RSA public exponent")
    else if n % 2 = 0 then .error (.valueError "RSA modulus is not odd")
    else if d ≤ 1 ∨ n ≤ d then .error (.valueError "Invalid RSA private exponent")
    else if p * q ≠ n then .error (.valueError "RSA factors do not match modulus")
    else if ¬ Nat.Prime p then .error (.valueError "RSA factor p is composite")
    else if ¬ Nat.Prime q then .error (.valueError "RSA factor q is composite")
    else if e * d % ((p - 1) * (q - 1) / Nat.gcd (p - 1) (q - 1)) ≠ 1 then
      .error (.valueError "Invalid RSA condition")
    else if u ≤ 1 ∨ q ≤ u then .error (.valueError "Invalid RSA component u")
    else if p * u % q ≠ 1 then .error (.valueError "Invalid RSA component u with p")
    else .ok ⟨n, e, d, p, q, u⟩

/-- The conjunction of the `RSA.construct` consistency conditions, for a
key stored as `⟨n, e, d, p, q, u⟩`: exactly what passing the checks of
`construct` means. -/
def KeyChecks (n e d p q u : Nat) : Prop :=
  Nat.gcd p q = 1 ∧ 1 < e ∧ e < n ∧ n % 2 = 1 ∧ 1 < d ∧ d < n ∧ p * q = n ∧
  Nat.Prime p ∧ Nat.Prime q ∧
  e * d % ((p - 1) * (q - 1) / Nat.gcd (p - 1) (q - 1)) = 1 ∧
  1 < u ∧ u < q ∧ p * u % q = 1

/-- 32-bit left rotation (operands below `2^32`). -/
def rotl (k x : Nat) : Nat := ((x <<< k) ||| (x >>> (32 - k))) % 4294967296

/-- Big-endian 32-bit word from four bytes. -/
def wordOfBytes (a b c d : Nat) : Nat := ((a * 256 + b) * 256 + c) * 256 + d

/-- Big-endian bytes of a 32-bit word. -/
def bytesOfWord (w : Nat) : List Nat :=
  [w / 16777216 % 256, w / 65536 % 256, w / 256 % 256, w % 256]

/-- Groups a byte list into big-endian 32-bit words. -/
def toWords : List Nat → List Nat
  | a :: b :: c :: d :: rest => wordOfBytes a b c d :: toWords rest
  | _ => []

/-- SHA-1 message-schedule extension, on the reversed word list: the new
word is `rotl 1 (w[t-3] ^ w[t-8] ^ w[t-14] ^ w[t-16])`. -/
def sha1ExtendRev : Nat → List Nat → List Nat
  | 0, ws => ws
  | fuel+1, ws =>
    sha1ExtendRev fuel
      (rotl 1 (((ws.getD 2 0) ^^^ (ws.getD 7 0)) ^^^ ((ws.getD 13 0) ^^^ (ws.getD 15 0))) :: ws)

/-- The five SHA-1 chaining words. -/
structure Sha1State where
  h0 : Nat
  h1 : Nat
  h2 : Nat
  h3 : Nat
  h4 : Nat
deriving Repr, DecidableEq

/-- SHA-1 round function (FIPS 180-4 `f_t`). -/
def sha1F (t b c d : Nat) : Nat :=
  if t < 20 then (b &&& c) ||| ((b ^^^ 4294967295) &&& d)
  else if t < 40 then (b ^^^ c) ^^^ d
  else if t < 60 then ((b &&& c) ||| (b &&& d)) ||| (c &&& d)
  else (b ^^^ c) ^^^ d

/-- SHA-1 round constants. -/
def sha1K (t : Nat) : Nat :=
  if t < 20 then 1518500249
  else if t < 40 then 1859775393
  else if t < 60 then 2400959708
  else 3395469782

/-- One SHA-1 round on the working state `(a, b, c, d, e)`. -/
def sha1Round (st : Nat × Nat × Nat × Nat × Nat) (tw : Nat × Nat) :
    Nat × Nat × Nat × Nat × Nat :=
  match st, tw with
  | (a, b, c, d, e), (t, w) =>
    ((rotl 5 a + sha1F t b c d + e + sha1K t + w) % 4294967296, a, rotl 30 b, c, d)

/-- SHA-1 compression of one 64-byte chunk. -/
def sha1Chunk (st : Sha1State) (chunk : List Nat) : Sha1State :=
  let w := (sha1ExtendRev 64 (toWords chunk).reverse).reverse
  match ((List.range 80).zip w).foldl sha1Round (st.h0, st.h1, st.h2, st.h3, st.h4) with
  | (a, b, c, d, e) =>
    ⟨(st.h0 + a) % 4294967296, (st.h1 + b) % 4294967296, (st.h2 + c) % 4294967296,
     (st.h3 + d) % 4294967296, (st.h4 + e) % 4294967296⟩

/-- Splits a list into 64-byte chunks (fuelled; fuel bounds the number of
chunks). -/
def chunks64 : Nat → List Nat → List (List Nat)
  | 0, _ => []
  | _+1, [] => []
  | fuel+1, l => l.take 64 :: chunks64 fuel (l.drop 64)

/-- `k`-byte big-endian encoding of `x mod 256^k`. -/
def beBytes : Nat → Nat → List Nat
  | 0, _ => []
  | k+1, x => beBytes k (x / 256) ++ [x % 256]

/-- SHA-1 padding: `0x80`, zeros to 56 mod 64, then the 64-bit big-endian
bit length. -/
def sha1Pad (msg : List Nat) : List Nat :=
  msg ++ [128] ++ List.replicate ((119 - msg.length % 64) % 64) 0 ++ beBytes 8 (msg.length * 8)

/-- `Crypto.Hash.SHA1.new(data).digest()`: the 20-byte SHA-1 digest. -/
def sha1 (msg : List Nat) : List Nat :=
  let final := (chunks64 (msg.length + 9) (sha1Pad msg)).foldl sha1Chunk
    ⟨1732584193, 4023233417, 2562383102, 271733878, 3285377520⟩
  bytesOfWord final.h0 ++ bytesOfWord final.h1 ++ bytesOfWord final.h2 ++
    bytesOfWord final.h3 ++ bytesOfWord final.h4

/-- The standard base64 alphabet. -/
def b64Chars : List Char :=
  "ABCDEFGHIJKLMNOPQRSTUVWXYZabcdefghijklmnopqrstuvwxyz0123456789+/".toList

/-- Base64 digit value encoding. -/
def b64Char (i : Nat) : Char := b64Chars.getD i 'A'

/-- Base64 digit value decoding. -/
def b64Val (c : Char) : Option Nat := b64Chars.indexOf? c

/-- Core of `base64.b64encode`: 3-byte groups to 4 characters, `=`-padded. -/
def b64encodeCore : List Nat → List Char
  | a :: b :: c :: rest =>
    b64Char (a / 4) :: b64Char (a % 4 * 16 + b / 16) :: b64Char (b % 16 * 4 + c / 64) ::
      b64Char (c % 64) :: b64encodeCore rest
  | [a, b] => [b64Char (a / 4), b64Char (a % 4 * 16 + b / 16), b64Char (b % 16 * 4), '=']
  | [a] => [b64Char (a / 4), b64Char (a % 4 * 16), '=', '=']
  | [] => []

/-- `base64.b64encode`. -/
def b64encode (bs : List Nat) : String := String.mk (b64encodeCore bs)

/-- Core of `base64.b64decode` after discarding non-alphabet characters:
4-character quanta; a quantum ending in padding terminates the decode
(later characters are ignored, as in CPython's `binascii.a2b_base64` with
`strict_mode=False`); misplaced padding raises `binascii.Error`. -/
def b64decodeCore : List Char → Except PyErr (List Nat)
  | [] => .ok []
  | a :: b :: c :: d :: rest =>
    if a = '=' then
      if (b :: c :: d :: rest).all (· = '=') then .ok [] else .error .binasciiError
    else if b = '=' then .error .binasciiError
    else
      match b64Val a, b64Val b with
      | some va, some vb =>
        if c = '=' then
          if d = '=' then .ok [va * 4 + vb / 16] else .error .binasciiError
        else
          match b64Val c with
          | some vc =>
            if d = '=' then .ok [va * 4 + vb / 16, vb % 16 * 16 + vc / 4]
            else
              match b64Val d with
              | some vd =>
                match b64decodeCore rest with
                | .ok tl => .ok ((va * 4 + vb / 16) :: (vb % 16 * 16 + vc / 4) ::
                    (vc % 4 * 64 + vd) :: tl)
                | .error er => .error er
              | none => .error .binasciiError
          | none => .error .binasciiError
      | _, _ => .error .binasciiError
  | leftover =>
    if leftover.all (· = '=') then .ok [] else .error .binasciiError

/-- `base64.b64decode` (default `validate=False`): characters outside the
alphabet and `=` are discarded, then the quanta are decoded. -/
def b64decode (s : String) : Except PyErr (List Nat) :=
  b64decodeCore (s.toList.filter (fun c => b64Chars.contains c || c = '='))

/-- Lowercase hex digit. -/
def hexDigit (n : Nat) : Char := "0123456789abcdef".toList.getD n '0'

/-- Four lowercase hex digits, as in `json` `\uXXXX` escapes. -/
def hex4 (n : Nat) : String :=
  String.mk [hexDigit (n / 4096 % 16), hexDigit (n / 256 % 16), hexDigit (n / 16 % 16),
    hexDigit (n % 16)]

/-- CPython `json` string escaping with the default `ensure_ascii=True`:
`"` and `\` are escaped, control characters use the short escapes or
`\uXXXX`, every character outside printable ASCII is `\uXXXX`-escaped
(astral code points as surrogate pairs). -/
def jsonEscapeChar (c : Char) : String :=
  if c = '"' then "\\\""
  else if c = '\\' then "\\\\"
  else if c = '\n' then "\\n"
  else if c = '\r' then "\\r"
  else if c = '\t' then "\\t"
  else if c = '\x08' then "\\b"
  else if c = '\x0c' then "\\f"
  else if c.toNat < 32 ∨ 126 < c.toNat then
    if c.toNat < 65536 then "\\u" ++ hex4 c.toNat
    else "\\u" ++ hex4 (55296 + (c.toNat - 65536) / 1024) ++
      "\\u" ++ hex4 (56320 + (c.toNat - 65536) % 1024)
  else String.singleton c

/-- A JSON string literal: quotes around the escaped characters. -/
def jsonQuote (s : String) : String :=
  "\"" ++ String.join (s.toList.map jsonEscapeChar) ++ "\""

mutual

/-- CPython `json.dumps` with default options: separators `", "` and
`": "`, `ensure_ascii=True`, insertion order preserved. -/
def jsonDumps : JsonVal → String
  | .jstr s => jsonQuote s
  | .jint n => toString n
  | .jbool b => if b then "true" else "false"
  | .jnull => "null"
  | .jarr l => "[" ++ jsonDumpsList l ++ "]"
  | .jobj l => "\x7b" ++ jsonDumpsObj l ++ "\x7d"

/-- Array elements joined by `", "`. -/
def jsonDumpsList : List JsonVal → String
  | [] => ""
  | [x] => jsonDumps x
  | x :: xs => jsonDumps x ++ ", " ++ jsonDumpsList xs

/-- Object entries `"key": value` joined by `", "`. -/
def jsonDumpsObj : List (String × JsonVal) → String
  | [] => ""
  | [(k, v)] => jsonQuote k ++ ": " ++ jsonDumps v
  | (k, v) :: xs => jsonQuote k ++ ": " ++ jsonDumps v ++ ", " ++ jsonDumpsObj xs

end

/-- UTF-8 encoding of one code point. -/
def utf8Char (c : Char) : List Nat :=
  let n := c.toNat
  if n < 128 then [n]
  else if n < 2048 then [192 + n / 64, 128 + n % 64]
  else if n < 65536 then [224 + n / 4096, 128 + n / 64 % 64, 128 + n % 64]
  else [240 + n / 262144, 128 + n / 4096 % 64, 128 + n / 64 % 64, 128 + n % 64]

/-- `str.encode('utf8')`. -/
def utf8Encode (s : String) : List Nat := (s.toList.map utf8Char).flatten

/-- The byte sequence `_make_sign` hashes and `_request_builder` transmits:
`json.dumps(data).encode('utf8')`. -/
def serializeJson (data : JsonVal) : List Nat := utf8Encode (jsonDumps data)

/-- The DER `DigestInfo` header for SHA-1 with NULL parameters
(`30 21 30 09 06 05 2b 0e 03 02 1a 05 00 04 14`), as produced by
`_EMSA_PKCS1_V1_5_ENCODE` for `Crypto.Hash.SHA1`. -/
def sha1DerHeader : List Nat := [48, 33, 48, 9, 6, 5, 43, 14, 3, 2, 26, 5, 0, 4, 20]

/-- PyCryptodome `_EMSA_PKCS1_V1_5_ENCODE(msg_hash, emLen)`:
`00 01 FF…FF 00 ‖ DigestInfo`, raising `TypeError` when `emLen` is less
than `len(digestInfo) + 11`. -/
def emsaEncode (digest : List Nat) (emLen : Nat) : Except PyErr (List Nat) :=
  let digestInfo := sha1DerHeader ++ digest
  if emLen < digestInfo.length + 11 then
    .error (.typeError "Selected hash algorithm has a too long digest")
  else
    .ok ([0, 1] ++ List.replicate (emLen - digestInfo.length - 3) 255 ++ [0] ++ digestInfo)

/-- PyCryptodome `RsaKey._decrypt(ciphertext)` with the blinding factor `r`
(drawn by the library from `[1, n)`) made explicit: range check on the
ciphertext, blinding `c' = c * r^e mod n`, CRT exponentiation
`m1 = c'^(d mod (p-1)) mod p`, `m2 = c'^(d mod (q-1)) mod q`, Garner
recombination through `u`, unblinding by `r⁻¹ mod n` (`Integer.inverse`
raises `ValueError` when `gcd(r, n) ≠ 1`), and the final fault check
re-encrypting the result. -/
def rsaDecrypt (key : RsaKey) (r c : Nat) : Except PyErr Nat :=
  if key.n ≤ c then .error (.valueError "Ciphertext too large")
  else
    let cp := c * powMod r key.e key.n % key.n
    let m1 := powMod cp (key.d % (key.p - 1)) key.p
    let m2 := powMod cp (key.d % (key.q - 1)) key.q
    let h := (((m2 : Int) - (m1 : Int)) * (key.u : Int)) % (key.q : Int)
    let mp := h.toNat * key.p + m1
    if Nat.gcd r key.n ≠ 1 then .error (.valueError "No inverse value can be computed")
    else
      let result := pyinverse r key.n * mp % key.n
      if c ≠ powMod result key.e key.n then
        .error (.valueError "Fault detected in RSA decryption")
      else .ok result

/-- PyCryptodome `PKCS115_SigScheme.sign(msg_hash)` (RFC 3447 §8.2.1):
`k = ceil(size(n) / 8)` bytes, EMSA-PKCS1-v1_5 encoding, RSASP1 via
`_decrypt`, `long_to_bytes(m_int, k)`. -/
def pkcs1Sign (key : RsaKey) (r : Nat) (digest : List Nat) : Except PyErr (List Nat) := do
  let k := byteLength key.n
  let em ← emsaEncode digest k
  let mInt ← rsaDecrypt key r (bytes_to_long em)
  return long_to_bytes mInt k

/-- PyCryptodome `PKCS115_SigScheme.verify(msg_hash, signature)` against
the public key `(n, e)`, as a Bool: `true` iff verification raises no
`ValueError`.  The signature must be exactly `k` bytes; the recovered
`long_to_bytes(sig^e mod n, k)` must equal the EMSA encoding of the
digest.  (The library additionally accepts the parameterless `DigestInfo`
variant, which only widens acceptance and is not exercised by signatures
the scheme itself produces.) -/
def pkcs1Verify (n e : Nat) (digest : List Nat) (signature : List Nat) : Bool :=
  let k := byteLength n
  if signature.length ≠ k then false
  else
    match emsaEncode digest k with
    | .error _ => false
    | .ok em1 =>
      long_to_bytes (powMod (bytes_to_long signature) e n) k = em1

/-- `Pasargad._make_sign(data)`: serialize the payload with `json.dumps`,
UTF-8 encode, SHA-1, PKCS#1 v1.5 sign, base64-encode the signature.  `r`
is the blinding factor drawn inside the library's `_decrypt`. -/
def make_sign (key : RsaKey) (r : Nat) (data : JsonVal) : Except PyErr String := do
  let signature ← pkcs1Sign key r (sha1 (serializeJson data))
  return b64encode signature

/-- A node of the parsed XML key file, as `xml.dom.minidom` presents it:
elements with a tag and children, text nodes (`nodeType == TEXT_NODE`)
with their data, and non-text leaves (comments, CDATA sections) which
`_process_xml_node` skips. -/
inductive XmlNode where
  | elem (tag : String) (children : List XmlNode)
  | text (data : String)
  | comment (data : String)
  | cdata (data : String)

/-- The child list of a node (non-elements have none). -/
def XmlNode.children : XmlNode → List XmlNode
  | .elem _ cs => cs
  | _ => []

mutual

/-- `getElementsByTagName(tag)` from a node: matching elements of the
subtree rooted here (root included), in document order. -/
def elementsByTagName (tag : String) : XmlNode → List XmlNode
  | .elem t cs =>
    (if t = tag then [.elem t cs] else []) ++ elementsByTagNameList tag cs
  | _ => []

/-- `getElementsByTagName` over a list of siblings, in order. -/
def elementsByTagNameList (tag : String) : List XmlNode → List XmlNode
  | [] => []
  | x :: xs => elementsByTagName tag x ++ elementsByTagNameList tag xs

end

/-- `Pasargad._process_xml_node(nodelist)`: collect the `data` of the
text nodes in order, join, base64-decode, read as a big-endian integer. -/
def process_xml_node (nodelist : List XmlNode) : Except PyErr Nat := do
  let rc := nodelist.foldl
    (fun acc node => match node with | .text s => acc ++ [s] | _ => acc) []
  let string := String.join rc
  return bytes_to_long (← b64decode string)

/-- `document.getElementsByTagName(tag)[0]`: `IndexError` when absent. -/
def firstElementByTagName (tag : String) (doc : XmlNode) : Except PyErr XmlNode :=
  match elementsByTagName tag doc with
  | [] => .error .indexError
  | x :: _ => .ok x

/-- `Pasargad._convert_xml_key_to_pem`, from the parsed document onward
(the file read and `minidom.parseString` are taken as given input): for
each of `Modulus`, `Exponent`, `D`, `P`, `Q` take the first matching
element, process its child nodes, then `RSA.construct`.  The Python
wrapper catches any exception `err` from this body and raises
`SystemExit(err)`; an `Except.error` result models that abort. -/
def convert_xml_key_to_pem (doc : XmlNode) : Except PyErr RsaKey := do
  let modulus ← process_xml_node (← firstElementByTagName "Modulus" doc).children
  let exponent ← process_xml_node (← firstElementByTagName "Exponent" doc).children
  let d ← process_xml_node (← firstElementByTagName "D" doc).children
  let p ← process_xml_node (← firstElementByTagName "P" doc).children
  let q ← process_xml_node (← firstElementByTagName "Q" doc).children
  construct modulus exponent d p q

/-- Python truthiness of a parsed JSON value (`not response['IsSuccess']`):
`None`, `False`, `0`, `""`, `[]`, `{}` are falsy. -/
def pyTruthy : JsonVal → Bool
  | .jnull => false
  | .jbool b => b
  | .jint n => n != 0
  | .jstr s => s != ""
  | .jarr l => !l.isEmpty
  | .jobj l => !l.isEmpty

/-- `value[key]` on a parsed JSON value: for an object, the value of the
key (later duplicates win, as in `json.loads` building a dict);
`KeyError` when absent; `TypeError` on a non-object. -/
def getItem (v : JsonVal) (key : String) : Except PyErr JsonVal :=
  match v with
  | .jobj fields =>
    match (fields.filter (fun kv => kv.1 = key)).getLast? with
    | some kv => .ok kv.2
    | none => .error (.keyError key)
  | _ => .error (.typeError "value is not subscriptable")

/-- The outbound request `_request_builder` hands to the transport. -/
structure HttpRequest where
  url : String
  method : String
  signHeader : String
  body : List Nat

/-- The request-construction half of `Pasargad._request_builder`: the
`Sign` header is `_make_sign(data)` and the body is
`json.dumps(data).encode("utf-8")`. -/
def buildRequest (key : RsaKey) (r : Nat) (url : String) (data : JsonVal)
    (method : String) : Except PyErr HttpRequest := do
  let signature ← make_sign key r data
  return ⟨url, method, signature, serializeJson data⟩

/-- What the transport produced: `urlopen` succeeded, or it raised
`HTTPError` (which also carries a readable body). -/
inductive TransportResult where
  | success (body : JsonVal)
  | httpError (body : JsonVal)

/-- The body `_request_builder` goes on to parse: on `HTTPError` the
exception object itself is read, so both cases yield their body. -/
def TransportResult.responseBody : TransportResult → JsonVal
  | .success b => b
  | .httpError b => b

/-- The response-judgment half of `Pasargad._request_builder`: parse the
body, raise `ApiError(400, response['Message'])` when `IsSuccess` is
falsy, return the parsed response otherwise. -/
def judgeResponse (response : JsonVal) : Except PyErr JsonVal := do
  let isSuccess ← getItem response "IsSuccess"
  if !(pyTruthy isSuccess) then
    let msg ← getItem response "Message"
    .error (.apiError 400 msg)
  else
    return response

/-- `Pasargad._request_builder(url, data, method)` with the transport
outcome as a parameter: build the signed request, send it, catch
`HTTPError`, and judge the parsed response body. -/
def request_builder (key : RsaKey) (r : Nat) (url : String) (data : JsonVal)
    (method : String) (transport : TransportResult) : Except PyErr JsonVal := do
  let _ ← buildRequest key r url data method
  judgeResponse transport.responseBody

/-- The five big-integer components extracted by the loader, in extraction
order, before `RSA.construct`. -/
def xmlKeyComponents (doc : XmlNode) : Except PyErr (Nat × Nat × Nat × Nat × Nat) := do
  let modulus ← process_xml_node (← firstElementByTagName "Modulus" doc).children
  let exponent ← process_xml_node (← firstElementByTagName "Exponent" doc).children
  let d ← process_xml_node (← firstElementByTagName "D" doc).children
  let p ← process_xml_node (← firstElementByTagName "P" doc).children
  let q ← process_xml_node (← firstElementByTagName "Q" doc).children
  return (modulus, exponent, d, p, q)

/-- A concrete 384-bit RSA key used as a test fixture: `p` and `q` are the
primes `29 * 2^185 + 1` and `229 * 2^186 + 1` (certified below via
`lucas_primality`), `e = 65537`, `d = e⁻¹ mod lcm(p-1, q-1)`, and
`u = p⁻¹ mod q`. -/
def bigKey : RsaKey :=
  ⟨31941982806427702203215955237433317783146307189350711831303742822813033490058619330461996917181128294078353455972353,
   65537,
   617019388866077810926543447624960738030227891792652768575489,
   1422155861923544860556546041195486922398189905386382819329,
   22460254646930467108099934029914931395116240574722873491457,
   18010087642293894371063816564780271328484817617027199256554⟩

/-- A tiny RSA key accepted by `RSA.construct`: `n = 65 = 5 * 13`,
`e = 7`, `d = 19` (`7 * 19 = 133 ≡ 1 mod lcm(4, 12) = 12`), `u = 8`. -/
def tinyKey : RsaKey := ⟨65, 7, 19, 5, 13, 8⟩

/-- The payload of the spec's concrete scenario. -/
def testPayload : JsonVal := .jobj [("Amount", .jstr "1000"), ("InvoiceNumber", .jstr "A1")]

/-- An XML key document with the tiny key's components but no `Modulus`
element. -/
def docNoModulus : XmlNode :=
  .elem "RSAKeyValue"
    [.elem "Exponent" [.text "Bw=="], .elem "D" [.text "Ew=="],
     .elem "P" [.text "BQ=="], .elem "Q" [.text "DQ=="]]

/-- An XML key document with the tiny key's components but no `D`
element. -/
def docNoD : XmlNode :=
  .elem "RSAKeyValue"
    [.elem "Modulus" [.text "QQ=="], .elem "Exponent" [.text "Bw=="],
     .elem "P" [.text "BQ=="], .elem "Q" [.text "DQ=="]]

/-- A complete XML key document for the tiny key. -/
def docTiny : XmlNode :=
  .elem "RSAKeyValue"
    [.elem "Modulus" [.text "QQ=="], .elem "Exponent" [.text "Bw=="],
     .elem "D" [.text "Ew=="], .elem "P" [.text "BQ=="], .elem "Q" [.text "DQ=="]]

/-- The tiny-key document with an extra unrecognized element inserted. -/
def docTinyExtra : XmlNode :=
  .elem "RSAKeyValue"
    [.elem "Modulus" [.text "QQ=="], .elem "Exponent" [.text "Bw=="],
     .elem "Garbage" [.text "ignored", .comment "extra"],
     .elem "D" [.text "Ew=="], .elem "P" [.text "BQ=="], .elem "Q" [.text "DQ=="]]

/-- The tiny-key document with its `Modulus` text replaced by the base64
of 66, so that the decoded components violate `p * q = n`. -/
def docBadModulus : XmlNode :=
  .elem "RSAKeyValue"
    [.elem "Modulus" [.text "Qg=="], .elem "Exponent" [.text "Bw=="],
     .elem "D" [.text "Ew=="], .elem "P" [.text "BQ=="], .elem "Q" [.text "DQ=="]]

/-- The five element names the loader requires. -/
def requiredNames : List String := ["Modulus", "Exponent", "D", "P", "Q"]

/-- A gateway response body with falsy `IsSuccess`. -/
def respFail : JsonVal := .jobj [("IsSuccess", .jbool false), ("Message", .jstr "oops")]

/-- A gateway response body with truthy `IsSuccess`. -/
def respOk : JsonVal := .jobj [("IsSuccess", .jbool true), ("Token", .jstr "tok123")]

/-! ### Arithmetic lemmas -/

theorem powModAux_correct (fuel b e n : Nat) (h : e ≤ fuel) :
    powModAux fuel b e n = b ^ e % n := by
  induction fuel generalizing e with
  | zero =>
    interval_cases e
    simp [powModAux]
  | succ f ih =>
    rw [powModAux]
    by_cases he : e = 0
    · simp [he]
    · have h2 : e / 2 ≤ f := by omega
      rw [if_neg he, ih _ h2]
      by_cases hodd : e % 2 = 1
      · rw [if_pos hodd]
        conv_rhs => rw [show e = e / 2 + e / 2 + 1 by omega]
        rw [pow_add, pow_add, pow_one]
        conv_rhs => rw [Nat.mul_mod, Nat.mul_mod (b ^ (e / 2))]
        simp [Nat.mod_mod]
      · rw [if_neg hodd]
        conv_rhs => rw [show e = e / 2 + e / 2 by omega]
        rw [pow_add]
        conv_rhs => rw [Nat.mul_mod]

theorem powMod_correct (b e n : Nat) : powMod b e n = b ^ e % n :=
  powModAux_correct e b e n le_rfl

theorem bitLenAux_zero (fuel : Nat) : bitLenAux fuel 0 = 0 := by
  cases fuel <;> simp [bitLenAux]

theorem bitLenAux_spec (fuel x : Nat) (hf : x ≤ fuel) (hx : 0 < x) :
    2 ^ (bitLenAux fuel x - 1) ≤ x ∧ x < 2 ^ bitLenAux fuel x := by
  induction fuel generalizing x with
  | zero => omega
  | succ f ih =>
    rw [bitLenAux, if_neg (by omega)]
    by_cases h1 : x = 1
    · subst h1
      simp [bitLenAux_zero]
    · have hx2 : 2 ≤ x := by omega
      have hhalf : 0 < x / 2 := by omega
      have hle : x / 2 ≤ f := by omega
      obtain ⟨ihl, ihu⟩ := ih (x / 2) hle hhalf
      set g := bitLenAux f (x / 2) with hg
      have hg1 : 1 ≤ g := by
        by_contra hc
        have : g = 0 := by omega
        rw [this] at ihu
        omega
      have hA : 2 ^ g = 2 * 2 ^ (g - 1) := by
        conv_lhs => rw [show g = (g - 1) + 1 by omega]
        ring
      have hB : 2 ^ (g + 1) = 2 * 2 ^ g := by ring
      constructor
      · have h4 : 2 ^ (g + 1 - 1) = 2 ^ g := by simp
        rw [h4, hA]
        omega
      · rw [hB]
        omega

theorem bitLen_spec (x : Nat) (hx : 0 < x) :
    2 ^ (bitLen x - 1) ≤ x ∧ x < 2 ^ bitLen x :=
  bitLenAux_spec x x le_rfl hx

theorem bitLen_pos (x : Nat) (hx : 0 < x) : 0 < bitLen x := by
  obtain ⟨-, hu⟩ := bitLen_spec x hx
  by_contra hc
  have : bitLen x = 0 := by omega
  rw [this] at hu
  omega

theorem byteLength_upper (n : Nat) : n < 2 ^ (8 * byteLength n) := by
  by_cases hn : n = 0
  · subst hn; positivity
  · obtain ⟨-, hu⟩ := bitLen_spec n (by omega)
    have h1 : bitLen n ≤ 8 * byteLength n := by
      unfold byteLength; omega
    calc n < 2 ^ bitLen n := hu
    _ ≤ 2 ^ (8 * byteLength n) := Nat.pow_le_pow_right (by omega) h1

theorem byteLength_lower (n : Nat) (hn : 0 < n) :
    2 ^ (8 * byteLength n - 8) ≤ n := by
  obtain ⟨hl, -⟩ := bitLen_spec n hn
  have hp := bitLen_pos n hn
  have h1 : 8 * byteLength n - 8 ≤ bitLen n - 1 := by
    unfold byteLength; omega
  calc 2 ^ (8 * byteLength n - 8) ≤ 2 ^ (bitLen n - 1) :=
        Nat.pow_le_pow_right (by omega) h1
  _ ≤ n := hl

theorem byteLength_pos (n : Nat) (hn : 0 < n) : 0 < byteLength n := by
  have := bitLen_pos n hn
  unfold byteLength; omega

theorem bytes_to_long_acc (l : List Nat) (acc : Nat) :
    l.foldl (fun acc b => acc * 256 + b) acc = acc * 256 ^ l.length + bytes_to_long l := by
  unfold bytes_to_long
  induction l generalizing acc with
  | nil => simp
  | cons b t ih =>
    simp only [List.foldl_cons, List.length_cons]
    rw [ih (acc * 256 + b), ih (0 * 256 + b)]
    ring

theorem bytes_to_long_cons (b : Nat) (t : List Nat) :
    bytes_to_long (b :: t) = b * 256 ^ t.length + bytes_to_long t := by
  have h1 : bytes_to_long (b :: t) = t.foldl (fun acc b => acc * 256 + b) (0 * 256 + b) := rfl
  rw [h1, show (0 : Nat) * 256 + b = b from by ring]
  exact bytes_to_long_acc t b

theorem bytes_to_long_single (b : Nat) : bytes_to_long [b] = b := by
  rw [bytes_to_long_cons]
  simp [bytes_to_long]

theorem minBytesAux_zero (fuel : Nat) : minBytesAux fuel 0 = [] := by
  cases fuel <;> simp [minBytesAux]

theorem bytes_to_long_eq_bigEndianVal (l : List Nat) :
    bytes_to_long l = bigEndianVal l := by
  induction l with
  | nil => rfl
  | cons b t ih => rw [bytes_to_long_cons, bigEndianVal, ih]

theorem bytes_to_long_append (l1 l2 : List Nat) :
    bytes_to_long (l1 ++ l2) = bytes_to_long l1 * 256 ^ l2.length + bytes_to_long l2 := by
  unfold bytes_to_long
  rw [List.foldl_append]
  exact bytes_to_long_acc l2 _

theorem bytes_to_long_lt (l : List Nat) (h : ∀ b ∈ l, b < 256) :
    bytes_to_long l < 256 ^ l.length := by
  induction l with
  | nil => simp [bytes_to_long]
  | cons b t ih =>
    rw [bytes_to_long_cons]
    have hb : b < 256 := h b (by simp)
    have ht : bytes_to_long t < 256 ^ t.length := ih (fun x hx => h x (by simp [hx]))
    have : 256 ^ (b :: t).length = 256 * 256 ^ t.length := by
      rw [List.length_cons]; ring
    rw [this]
    nlinarith

theorem bytes_to_long_zero_cons (t : List Nat) :
    bytes_to_long (0 :: t) = bytes_to_long t := by
  rw [bytes_to_long_cons]; omega

theorem bytes_to_long_replicate_zero (k : Nat) (l : List Nat) :
    bytes_to_long (List.replicate k 0 ++ l) = bytes_to_long l := by
  induction k with
  | zero => simp
  | succ m ih =>
    rw [List.replicate_succ, List.cons_append, bytes_to_long_zero_cons, ih]

theorem minBytesAux_spec (fuel x : Nat) (hf : x ≤ fuel) :
    bytes_to_long (minBytesAux fuel x) = x ∧
    x < 256 ^ (minBytesAux fuel x).length ∧
    (∀ b ∈ minBytesAux fuel x, b < 256) ∧
    (0 < x → 256 ^ ((minBytesAux fuel x).length - 1) ≤ x) := by
  induction fuel generalizing x with
  | zero =>
    have : x = 0 := by omega
    subst this
    simp [minBytesAux, bytes_to_long]
  | succ f ih =>
    rw [minBytesAux]
    by_cases hx : x = 0
    · subst hx; simp [bytes_to_long]
    · rw [if_neg hx]
      have hle : x / 256 ≤ f := by omega
      obtain ⟨ih1, ih2, ih3, ih4⟩ := ih (x / 256) hle
      set m := minBytesAux f (x / 256) with hm
      refine ⟨?_, ?_, ?_, ?_⟩
      · rw [bytes_to_long_append, ih1, bytes_to_long_single]
        simp
        omega
      · have hlen : (m ++ [x % 256]).length = m.length + 1 := by simp
        rw [hlen]
        have : 256 ^ (m.length + 1) = 256 * 256 ^ m.length := by ring
        rw [this]
        have hmod : x % 256 < 256 := Nat.mod_lt _ (by omega)
        nlinarith [Nat.div_add_mod x 256]
      · intro b hb
        rcases List.mem_append.mp hb with h | h
        · exact ih3 b h
        · simp at h
          omega
      · intro _
        have hlen : (m ++ [x % 256]).length = m.length + 1 := by simp
        rw [hlen]
        simp only [Nat.add_sub_cancel]
        by_cases hq : x / 256 = 0
        · have hm0 : m = [] := by rw [hm, hq, minBytesAux_zero]
          rw [hm0]
          simp
          omega
        · have hpos : 0 < x / 256 := by omega
          have h4 := ih4 hpos
          have hml : 1 ≤ m.length := by
            by_contra hc
            have h0 : m.length = 0 := by omega
            rw [h0] at ih2
            simp at ih2
            omega
          calc 256 ^ m.length = 256 * 256 ^ (m.length - 1) := by
                conv_lhs => rw [show m.length = (m.length - 1) + 1 by omega]
                ring
          _ ≤ 256 * (x / 256) := by nlinarith
          _ ≤ x := by
                have := Nat.div_mul_le_self x 256
                omega

theorem long_to_bytes_spec (x k : Nat) (hk : 0 < k) (hx : x < 256 ^ k) :
    (long_to_bytes x k).length = k ∧
    bytes_to_long (long_to_bytes x k) = x ∧
    (∀ b ∈ long_to_bytes x k, b < 256) := by
  unfold long_to_bytes
  rw [if_neg (by omega)]
  by_cases hx0 : x = 0
  · subst hx0
    simp only [reduceIte]
    have hc : (k - [0].length % k) % k = k - 1 := by
      simp only [List.length_singleton]
      by_cases hk1 : k = 1
      · subst hk1; rfl
      · rw [Nat.mod_eq_of_lt (show 1 < k by omega), Nat.mod_eq_of_lt (by omega)]
    rw [hc]
    refine ⟨by simp; omega, ?_, ?_⟩
    · rw [bytes_to_long_replicate_zero, bytes_to_long_single]
    · intro b hb
      rcases List.mem_append.mp hb with h | h
      · simp at h; omega
      · simp at h; omega
  · rw [if_neg hx0]
    obtain ⟨h1, h2, h3, h4⟩ := minBytesAux_spec x x le_rfl
    set m := minBytesAux x x with hm
    have hlow := h4 (by omega)
    have hlenle : m.length ≤ k := by
      by_contra hc
      have hge : k + 1 ≤ m.length := by omega
      have : 256 ^ k ≤ 256 ^ (m.length - 1) :=
        Nat.pow_le_pow_right (by omega) (by omega)
      omega
    have hpad : (k - m.length % k) % k = k - m.length := by
      by_cases he : m.length = k
      · rw [he]
        simp
      · have hlt : m.length < k := by omega
        have hml : 0 < m.length := by
          by_contra hc
          have h0 : m.length = 0 := by omega
          rw [h0] at h2
          simp at h2
          omega
        rw [Nat.mod_eq_of_lt hlt, Nat.mod_eq_of_lt (by omega)]
    rw [hpad]
    refine ⟨?_, ?_, ?_⟩
    · simp
      omega
    · rw [bytes_to_long_replicate_zero]
      exact h1
    · intro b hb
      rcases List.mem_append.mp hb with h | h
      · simp at h; omega
      · exact h3 b h

theorem bytes_to_long_inj (l1 l2 : List Nat) (hlen : l1.length = l2.length)
    (h1 : ∀ b ∈ l1, b < 256) (h2 : ∀ b ∈ l2, b < 256)
    (heq : bytes_to_long l1 = bytes_to_long l2) : l1 = l2 := by
  induction l1 generalizing l2 with
  | nil =>
    cases l2 with
    | nil => rfl
    | cons b t => simp at hlen
  | cons a t1 ih =>
    cases l2 with
    | nil => simp at hlen
    | cons b t2 =>
      simp only [List.length_cons] at hlen
      have hlen2 : t1.length = t2.length := by omega
      rw [bytes_to_long_cons, bytes_to_long_cons, hlen2] at heq
      have hv1 : bytes_to_long t1 < 256 ^ t2.length := by
        rw [← hlen2]
        exact bytes_to_long_lt t1 (fun x hx => h1 x (by simp [hx]))
      have hv2 : bytes_to_long t2 < 256 ^ t2.length := 
        bytes_to_long_lt t2 (fun x hx => h2 x (by simp [hx]))
      have hab : a = b := by
        by_contra hne
        rcases Nat.lt_or_ge a b with h | h
        · nlinarith
        · have : b < a := by omega
          nlinarith
      subst hab
      have ht : bytes_to_long t1 = bytes_to_long t2 := by omega
      rw [ih t2 hlen2 (fun x hx => h1 x (by simp [hx])) (fun x hx => h2 x (by simp [hx])) ht]

theorem long_to_bytes_of_bytes (l : List Nat) (k : Nat) (hk : 0 < k)
    (hlen : l.length = k) (hb : ∀ b ∈ l, b < 256) :
    long_to_bytes (bytes_to_long l) k = l := by
  have hlt : bytes_to_long l < 256 ^ k := hlen ▸ bytes_to_long_lt l hb
  obtain ⟨h1, h2, h3⟩ := long_to_bytes_spec (bytes_to_long l) k hk hlt
  exact bytes_to_long_inj _ l (by omega) h3 hb h2

theorem egcdAux_correct (a n : Nat) :
    ∀ (fuel r0 r1 : Nat) (s0 t0 s1 t1 : Int), r1 ≤ fuel →
    s0 * a + t0 * n = (r0 : Int) → s1 * a + t1 * n = (r1 : Int) →
    (egcdAux fuel r0 r1 s0 t0 s1 t1).1 = Nat.gcd r0 r1 ∧
    (egcdAux fuel r0 r1 s0 t0 s1 t1).2.1 * a + (egcdAux fuel r0 r1 s0 t0 s1 t1).2.2 * n =
      ((egcdAux fuel r0 r1 s0 t0 s1 t1).1 : Int) := by
  intro fuel
  induction fuel with
  | zero =>
    intro r0 r1 s0 t0 s1 t1 hf h0 h1
    have hz : r1 = 0 := by omega
    subst hz
    exact ⟨by simp [egcdAux], h0⟩
  | succ f ih =>
    intro r0 r1 s0 t0 s1 t1 hf h0 h1
    rw [egcdAux]
    by_cases hr : r1 = 0
    · subst hr
      simp only [if_pos rfl]
      exact ⟨by simp, h0⟩
    · rw [if_neg hr]
      have hmodle : r0 % r1 ≤ f := by
        have := Nat.mod_lt r0 (y := r1) (by omega)
        omega
      have hinv : (s0 - (r0 / r1 : Nat) * s1) * a + (t0 - (r0 / r1 : Nat) * t1) * n =
          ((r0 % r1 : Nat) : Int) := by
        have hdm : ((r0 % r1 : Nat) : Int) = (r0 : Int) - ((r0 / r1 : Nat) : Int) * (r1 : Int) := by
          have h := Nat.div_add_mod r0 r1
          have h2 : ((r1 : Int)) * ((r0 / r1 : Nat) : Int) + ((r0 % r1 : Nat) : Int) = (r0 : Int) := by
            exact_mod_cast congrArg (fun z : Nat => (z : Int)) h
          linarith [mul_comm ((r0 / r1 : Nat) : Int) ((r1 : Int))]
        rw [hdm, ← h0, ← h1]
        ring
      obtain ⟨hg, hb⟩ := ih r1 (r0 % r1) s1 t1 _ _ hmodle h1 hinv
      refine ⟨?_, hb⟩
      rw [hg, Nat.gcd_comm r1 (r0 % r1), ← Nat.gcd_rec r1 r0, Nat.gcd_comm r1 r0]

theorem egcd_spec (a n : Nat) :
    (egcd a n).1 = Nat.gcd a n ∧
    (egcd a n).2.1 * a + (egcd a n).2.2 * n = ((egcd a n).1 : Int) :=
  egcdAux_correct a n n a n 1 0 0 1 le_rfl (by ring) (by ring)

theorem pyinverse_spec (a n : Nat) (hg : Nat.gcd a n = 1) (hn : 1 < n) :
    a * pyinverse a n % n = 1 ∧ pyinverse a n < n := by
  obtain ⟨hgcd, hbez⟩ := egcd_spec a n
  rw [hgcd, hg] at hbez
  push_cast at hbez
  unfold pyinverse
  set s := (egcd a n).2.1 with hs
  set t := (egcd a n).2.2 with ht
  have hn' : (0 : Int) < (n : Int) := by exact_mod_cast (by omega : 0 < n)
  set w : Int := (s % (n : Int) + (n : Int)) % (n : Int) with hw
  have hw0 : 0 ≤ w := Int.emod_nonneg _ (by omega)
  have hwlt : w < (n : Int) := Int.emod_lt_of_pos _ hn'
  have hws : w % (n : Int) = s % (n : Int) := by
    rw [hw, show s % (n : Int) + (n : Int) = s % (n : Int) + 1 * (n : Int) from by ring,
      Int.add_mul_emod_self]
    rw [Int.emod_emod_of_dvd s dvd_rfl, Int.emod_emod_of_dvd s dvd_rfl]
  refine ⟨?_, by omega⟩
  have has : (a : Int) * s = 1 - t * (n : Int) := by
    rw [mul_comm]
    linarith
  have hmod : ((a : Int) * w) % (n : Int) = 1 := by
    rw [Int.mul_emod, hws, ← Int.mul_emod, has]
    have h3 : (1 - t * (n : Int)) % (n : Int) = 1 % (n : Int) := by
      conv_rhs => rw [show (1 : Int) = 1 - t * n + t * n by ring]
      rw [Int.add_mul_emod_self]
    rw [h3, Int.emod_eq_of_lt (by omega) (by omega)]
  have hcast : ((a * w.toNat % n : Nat) : Int) = ((a : Int) * w) % (n : Int) := by
    push_cast [Int.toNat_of_nonneg hw0]
    ring_nf
  have : ((a * w.toNat % n : Nat) : Int) = 1 := by rw [hcast, hmod]
  exact_mod_cast this

/-! ### RSA number theory -/

theorem pow_congr_exponent (p : Nat) (hp : Nat.Prime p) (a k j : Nat)
    (hkj : k % (p - 1) = j % (p - 1)) (hk : 1 ≤ k) (hj : 1 ≤ j) :
    a ^ k ≡ a ^ j [MOD p] := by
  haveI : Fact (Nat.Prime p) := ⟨hp⟩
  by_cases hpa : p ∣ a
  · have h0 : a ≡ 0 [MOD p] := Nat.modEq_zero_iff_dvd.mpr hpa
    calc a ^ k ≡ 0 ^ k [MOD p] := h0.pow k
    _ = 0 := zero_pow (by omega)
    _ = 0 ^ j := (zero_pow (by omega)).symm
    _ ≡ a ^ j [MOD p] := (h0.pow j).symm
  · rw [← ZMod.natCast_eq_natCast_iff]
    push_cast
    have ha : (a : ZMod p) ≠ 0 := fun h =>
      hpa ((ZMod.natCast_zmod_eq_zero_iff_dvd a p).mp h)
    have hfermat : (a : ZMod p) ^ (p - 1) = 1 := ZMod.pow_card_sub_one_eq_one ha
    have hsplit : ∀ i : Nat, (a : ZMod p) ^ i = (a : ZMod p) ^ (i % (p - 1)) := by
      intro i
      conv_lhs => rw [show i = (p - 1) * (i / (p - 1)) + i % (p - 1) from
        (Nat.div_add_mod i (p - 1)).symm]
      rw [pow_add, pow_mul, hfermat, one_pow, one_mul]
    rw [hsplit k, hsplit j, hkj]

theorem rsa_roundtrip (p q e d : Nat) (hp : Nat.Prime p) (hq : Nat.Prime q)
    (hpq : p ≠ q)
    (hed : e * d % ((p - 1) * (q - 1) / Nat.gcd (p - 1) (q - 1)) = 1)
    (he : 1 ≤ e) (hd : 1 ≤ d) (m : Nat) : m ^ (e * d) ≡ m [MOD p * q] := by
  have hL : (p - 1) * (q - 1) / Nat.gcd (p - 1) (q - 1) = Nat.lcm (p - 1) (q - 1) := rfl
  rw [hL] at hed
  have hLpos : 0 < Nat.lcm (p - 1) (q - 1) :=
    Nat.lcm_pos (by have := hp.two_le; omega) (by have := hq.two_le; omega)
  have hL1 : 1 < Nat.lcm (p - 1) (q - 1) := by
    by_contra hc
    have hone : Nat.lcm (p - 1) (q - 1) = 1 := by omega
    rw [hone, Nat.mod_one] at hed
    omega
  have hmodL : e * d ≡ 1 [MOD Nat.lcm (p - 1) (q - 1)] := by
    unfold Nat.ModEq
    rw [hed, Nat.mod_eq_of_lt hL1]
  have hed1 : 1 ≤ e * d := Nat.mul_pos (by omega) (by omega)
  have legp : m ^ (e * d) ≡ m [MOD p] := by
    have h1 : e * d ≡ 1 [MOD p - 1] := hmodL.of_dvd (Nat.dvd_lcm_left _ _)
    have := pow_congr_exponent p hp m (e * d) 1 h1 hed1 le_rfl
    rwa [pow_one] at this
  have legq : m ^ (e * d) ≡ m [MOD q] := by
    have h1 : e * d ≡ 1 [MOD q - 1] := hmodL.of_dvd (Nat.dvd_lcm_right _ _)
    have := pow_congr_exponent q hq m (e * d) 1 h1 hed1 le_rfl
    rwa [pow_one] at this
  have hco : Nat.Coprime p q := (Nat.coprime_primes hp hq).mpr hpq
  exact (Nat.modEq_and_modEq_iff_modEq_mul hco).mp ⟨legp, legq⟩

theorem garner_spec (p q u m1 m2 x : Nat) (hp : 0 < p) (hq : 0 < q)
    (hco : Nat.Coprime p q) (hu : p * u % q = 1)
    (h1 : m1 ≡ x [MOD p]) (h2 : m2 ≡ x [MOD q]) (hm1 : m1 < p) (hm2 : m2 < q) :
    ((((m2 : Int) - (m1 : Int)) * (u : Int)) % (q : Int)).toNat * p + m1 = x % (p * q) := by
  have hq2 : 1 < q := by
    by_contra hc
    have hq1 : q = 1 := by omega
    rw [hq1, Nat.mod_one] at hu
    omega
  set hI : Int := (((m2 : Int) - m1) * u) % q with hhI
  have hq' : (0 : Int) < (q : Int) := by exact_mod_cast hq
  have h0 : 0 ≤ hI := Int.emod_nonneg _ (by omega)
  have hlt : hI < (q : Int) := Int.emod_lt_of_pos _ hq'
  have hlt' : hI.toNat < q := by omega
  have hbound : hI.toNat * p + m1 < p * q := by
    have hstep : hI.toNat + 1 ≤ q := by omega
    calc hI.toNat * p + m1 < hI.toNat * p + p := by omega
    _ = (hI.toNat + 1) * p := by ring
    _ ≤ q * p := Nat.mul_le_mul_right p hstep
    _ = p * q := Nat.mul_comm q p
  have hmodp : hI.toNat * p + m1 ≡ x [MOD p] := by
    have hh : hI.toNat * p + m1 ≡ m1 [MOD p] := by
      unfold Nat.ModEq
      rw [Nat.add_comm, Nat.add_mul_mod_self_right]
    exact hh.trans h1
  have hmodq : hI.toNat * p + m1 ≡ x [MOD q] := by
    rw [← Int.natCast_modEq_iff]
    have hcast : ((hI.toNat * p + m1 : Nat) : Int) = hI * p + m1 := by
      push_cast [Int.toNat_of_nonneg h0]
      ring
    rw [hcast]
    have e1 : hI ≡ ((m2 : Int) - m1) * u [ZMOD (q : Int)] :=
      Int.emod_emod_of_dvd _ dvd_rfl
    have e2 : (p : Int) * u ≡ 1 [ZMOD (q : Int)] := by
      have hnat : p * u ≡ 1 [MOD q] := by
        unfold Nat.ModEq
        rw [hu, Nat.mod_eq_of_lt hq2]
      have := Int.natCast_modEq_iff.mpr hnat
      push_cast at this
      exact this
    calc hI * p + (m1 : Int)
        ≡ ((m2 : Int) - m1) * u * p + m1 [ZMOD (q : Int)] := (e1.mul_right _).add_right _
    _ = ((m2 : Int) - m1) * ((p : Int) * u) + m1 := by ring
    _ ≡ ((m2 : Int) - m1) * 1 + m1 [ZMOD (q : Int)] := (e2.mul_left _).add_right _
    _ = (m2 : Int) := by ring
    _ ≡ (x : Int) [ZMOD (q : Int)] := Int.natCast_modEq_iff.mpr h2
  have hcomb : hI.toNat * p + m1 ≡ x [MOD p * q] :=
    (Nat.modEq_and_modEq_iff_modEq_mul hco).mp ⟨hmodp, hmodq⟩
  calc hI.toNat * p + m1 = (hI.toNat * p + m1) % (p * q) := (Nat.mod_eq_of_lt hbound).symm
  _ = x % (p * q) := hcomb

/-! ### `RSA.construct` inversion -/

theorem construct_eq_ok (n e d p q : Nat) (key : RsaKey)
    (h : construct n e d p q = .ok key) :
    key = ⟨n, e, d, p, q, pyinverse p q⟩ ∧ KeyChecks n e d p q key.u := by
  simp only [construct] at h
  by_cases h1 : Nat.gcd p q ≠ 1
  · rw [if_pos h1] at h
    exact Except.noConfusion h
  · rw [if_neg h1] at h
    by_cases h2 : e ≤ 1 ∨ n ≤ e
    · rw [if_pos h2] at h
      exact Except.noConfusion h
    · rw [if_neg h2] at h
      by_cases h3 : n % 2 = 0
      · rw [if_pos h3] at h
        exact Except.noConfusion h
      · rw [if_neg h3] at h
        by_cases h4 : d ≤ 1 ∨ n ≤ d
        · rw [if_pos h4] at h
          exact Except.noConfusion h
        · rw [if_neg h4] at h
          by_cases h5 : p * q ≠ n
          · rw [if_pos h5] at h
            exact Except.noConfusion h
          · rw [if_neg h5] at h
            by_cases h6 : ¬ Nat.Prime p
            · rw [if_pos h6] at h
              exact Except.noConfusion h
            · rw [if_neg h6] at h
              by_cases h7 : ¬ Nat.Prime q
              · rw [if_pos h7] at h
                exact Except.noConfusion h
              · rw [if_neg h7] at h
                by_cases h8 : e * d % ((p - 1) * (q - 1) / Nat.gcd (p - 1) (q - 1)) ≠ 1
                · rw [if_pos h8] at h
                  exact Except.noConfusion h
                · rw [if_neg h8] at h
                  by_cases h9 : pyinverse p q ≤ 1 ∨ q ≤ pyinverse p q
                  · rw [if_pos h9] at h
                    exact Except.noConfusion h
                  · rw [if_neg h9] at h
                    by_cases h10 : p * pyinverse p q % q ≠ 1
                    · rw [if_pos h10] at h
                      exact Except.noConfusion h
                    · rw [if_neg h10] at h
                      cases h
                      refine ⟨rfl, ?_⟩
                      show KeyChecks n e d p q (pyinverse p q)
                      unfold KeyChecks
                      exact ⟨by omega, by omega, by omega, by omega, by omega, by omega, by omega,
                        not_not.mp h6, not_not.mp h7, by omega, by omega, by omega, by omega⟩

theorem construct_ok_of (n e d p q : Nat)
    (hc : KeyChecks n e d p q (pyinverse p q)) :
    construct n e d p q = .ok ⟨n, e, d, p, q, pyinverse p q⟩ := by
  obtain ⟨hg, he1, hen, hodd, hd1, hdn, hpq, hp, hq, hlcm, hu1, huq, hpu⟩ := hc
  simp only [construct]
  rw [if_neg (show ¬(Nat.gcd p q ≠ 1) from by omega)]
  rw [if_neg (show ¬(e ≤ 1 ∨ n ≤ e) from by omega)]
  rw [if_neg (show ¬(n % 2 = 0) from by omega)]
  rw [if_neg (show ¬(d ≤ 1 ∨ n ≤ d) from by omega)]
  rw [if_neg (show ¬(p * q ≠ n) from by omega)]
  rw [if_neg (show ¬(¬ Nat.Prime p) from not_not.mpr hp)]
  rw [if_neg (show ¬(¬ Nat.Prime q) from not_not.mpr hq)]
  rw [if_neg (show ¬(e * d % ((p - 1) * (q - 1) / Nat.gcd (p - 1) (q - 1)) ≠ 1) from by omega)]
  rw [if_neg (show ¬(pyinverse p q ≤ 1 ∨ q ≤ pyinverse p q) from by omega)]
  rw [if_neg (show ¬(p * pyinverse p q % q ≠ 1) from by omega)]

theorem ed_congr_legs (p q e d : Nat) (hp : Nat.Prime p) (hq : Nat.Prime q)
    (hed : e * d % ((p - 1) * (q - 1) / Nat.gcd (p - 1) (q - 1)) = 1) :
    e * d ≡ 1 [MOD p - 1] ∧ e * d ≡ 1 [MOD q - 1] := by
  have hL : (p - 1) * (q - 1) / Nat.gcd (p - 1) (q - 1) = Nat.lcm (p - 1) (q - 1) := rfl
  rw [hL] at hed
  have hLpos : 0 < Nat.lcm (p - 1) (q - 1) :=
    Nat.lcm_pos (by have := hp.two_le; omega) (by have := hq.two_le; omega)
  have hL1 : 1 < Nat.lcm (p - 1) (q - 1) := by
    by_contra hc
    have hone : Nat.lcm (p - 1) (q - 1) = 1 := by omega
    rw [hone, Nat.mod_one] at hed
    omega
  have hmodL : e * d ≡ 1 [MOD Nat.lcm (p - 1) (q - 1)] := by
    unfold Nat.ModEq
    rw [hed, Nat.mod_eq_of_lt hL1]
  exact ⟨hmodL.of_dvd (Nat.dvd_lcm_left _ _), hmodL.of_dvd (Nat.dvd_lcm_right _ _)⟩

theorem dp_pos (p q e d : Nat) (hp : Nat.Prime p) (hq : Nat.Prime q) (hpne2 : p ≠ 2)
    (hed : e * d % ((p - 1) * (q - 1) / Nat.gcd (p - 1) (q - 1)) = 1) :
    1 ≤ d % (p - 1) := by
  have hleg := (ed_congr_legs p q e d hp hq hed).1
  by_contra hc0
  have h0 : d % (p - 1) = 0 := by omega
  have hdvd : (p - 1) ∣ e * d := Dvd.dvd.mul_left (Nat.dvd_of_mod_eq_zero h0) e
  have hp3 : 3 ≤ p := by
    have := hp.two_le
    omega
  have hz : e * d % (p - 1) = 0 := Nat.eq_zero_of_dvd_of_lt hdvd |> fun _ => by
    exact Nat.mod_eq_zero_of_dvd hdvd
  have h1 : (1 : Nat) % (p - 1) = 1 := Nat.mod_eq_of_lt (by omega)
  unfold Nat.ModEq at hleg
  omega

theorem rsaDecrypt_ok (n e d p q u : Nat) (hk : KeyChecks n e d p q u)
    (r c : Nat) (hr : Nat.gcd r n = 1) (hc : c < n) :
    rsaDecrypt ⟨n, e, d, p, q, u⟩ r c = .ok (c ^ d % n) := by
  obtain ⟨hg, he1, hen, hodd, hd1, hdn, hpq, hp, hq, hlcm, hu1, huq, hpu⟩ := hk
  have hn1 : 1 < n := by omega
  have hppos : 0 < p := hp.pos
  have hqpos : 0 < q := hq.pos
  have hpne2 : p ≠ 2 := by
    intro h
    subst h
    have h2 : 2 * q % 2 = 0 := Nat.mul_mod_right 2 q
    rw [hpq] at h2
    omega
  have hqne2 : q ≠ 2 := by
    intro h
    subst h
    have h2 : p * 2 % 2 = 0 := Nat.mul_mod_left p 2
    rw [hpq] at h2
    omega
  have hpq' : p ≠ q := by
    intro h
    subst h
    rw [Nat.gcd_self] at hg
    have := hp.two_le
    omega
  have hco : Nat.Coprime p q := hg
  have roundtrip : ∀ m, m ^ (e * d) ≡ m [MOD n] := by
    intro m
    have h := rsa_roundtrip p q e d hp hq hpq' hlcm (by omega) (by omega) m
    rwa [hpq] at h
  have hdp1 : 1 ≤ d % (p - 1) := dp_pos p q e d hp hq hpne2 hlcm
  have hdq1 : 1 ≤ d % (q - 1) := by
    have hsymm : e * d % ((q - 1) * (p - 1) / Nat.gcd (q - 1) (p - 1)) = 1 := by
      rw [Nat.mul_comm (q - 1) (p - 1), Nat.gcd_comm (q - 1) (p - 1)]
      exact hlcm
    exact dp_pos q p e d hq hp hqne2 hsymm
  simp only [rsaDecrypt]
  rw [if_neg (by omega : ¬ n ≤ c)]
  rw [if_neg (by omega : ¬ Nat.gcd r n ≠ 1)]
  set cp := c * powMod r e n % n with hcp
  have hcpc : cp ≡ c * r ^ e [MOD n] := by
    rw [hcp, powMod_correct]
    have h1 : c * (r ^ e % n) ≡ c * r ^ e [MOD n] :=
      Nat.ModEq.mul_left c (Nat.mod_modEq (r ^ e) n)
    exact (Nat.mod_modEq _ n).trans h1
  set m1 := powMod cp (d % (p - 1)) p with hm1
  set m2 := powMod cp (d % (q - 1)) q with hm2
  have hm1v : m1 = cp ^ (d % (p - 1)) % p := powMod_correct _ _ _
  have hm2v : m2 = cp ^ (d % (q - 1)) % q := powMod_correct _ _ _
  have hm1lt : m1 < p := by rw [hm1v]; exact Nat.mod_lt _ hppos
  have hm2lt : m2 < q := by rw [hm2v]; exact Nat.mod_lt _ hqpos
  have hm1c : m1 ≡ cp ^ d [MOD p] := by
    rw [hm1v]
    have hcong := pow_congr_exponent p hp cp (d % (p - 1)) d
      (Nat.mod_mod_of_dvd d dvd_rfl) hdp1 (by omega)
    exact (Nat.mod_modEq _ p).trans hcong
  have hm2c : m2 ≡ cp ^ d [MOD q] := by
    rw [hm2v]
    have hcong := pow_congr_exponent q hq cp (d % (q - 1)) d
      (Nat.mod_mod_of_dvd d dvd_rfl) hdq1 (by omega)
    exact (Nat.mod_modEq _ q).trans hcong
  have hgar := garner_spec p q u m1 m2 (cp ^ d) hppos hqpos hco hpu hm1c hm2c hm1lt hm2lt
  rw [hpq] at hgar
  have hrinv := pyinverse_spec r n hr hn1
  have hcpd : cp ^ d ≡ c ^ d * r [MOD n] := by
    calc cp ^ d ≡ (c * r ^ e) ^ d [MOD n] := hcpc.pow d
    _ = c ^ d * (r ^ e) ^ d := mul_pow c (r ^ e) d
    _ = c ^ d * r ^ (e * d) := by rw [← pow_mul]
    _ ≡ c ^ d * r [MOD n] := Nat.ModEq.mul_left _ (roundtrip r)
  have hr1 : r * pyinverse r n ≡ 1 [MOD n] := by
    unfold Nat.ModEq
    rw [hrinv.1, Nat.mod_eq_of_lt hn1]
  have hresult : pyinverse r n * (cp ^ d % n) % n = c ^ d % n := by
    have hch : pyinverse r n * (cp ^ d % n) ≡ c ^ d * 1 [MOD n] := by
      calc pyinverse r n * (cp ^ d % n)
          ≡ pyinverse r n * cp ^ d [MOD n] := Nat.ModEq.mul_left _ (Nat.mod_modEq _ n)
      _ ≡ pyinverse r n * (c ^ d * r) [MOD n] := Nat.ModEq.mul_left _ hcpd
      _ = c ^ d * (r * pyinverse r n) := by ring
      _ ≡ c ^ d * 1 [MOD n] := Nat.ModEq.mul_left _ hr1
    have := hch
    unfold Nat.ModEq at this
    rw [this, Nat.mul_one]
  have hfault : powMod (c ^ d % n) e n = c := by
    rw [powMod_correct]
    have h5 : (c ^ d % n) ^ e ≡ (c ^ d) ^ e [MOD n] := (Nat.mod_modEq (c ^ d) n).pow e
    unfold Nat.ModEq at h5
    rw [h5, ← pow_mul]
    have h6 : c ^ (d * e) ≡ c [MOD n] := Nat.mul_comm d e ▸ roundtrip c
    unfold Nat.ModEq at h6
    rw [h6, Nat.mod_eq_of_lt hc]
  rw [hgar, hresult, hfault]
  rw [if_neg (by omega : ¬ c ≠ c)]

/-! ### SHA-1, EMSA, sign and verify -/

theorem bytesOfWord_lt (w : Nat) : ∀ b ∈ bytesOfWord w, b < 256 := by
  intro b hb
  simp [bytesOfWord] at hb
  rcases hb with rfl | rfl | rfl | rfl <;> omega

theorem sha1_length (msg : List Nat) : (sha1 msg).length = 20 := by
  unfold sha1
  simp [bytesOfWord]

theorem sha1_lt (msg : List Nat) : ∀ b ∈ sha1 msg, b < 256 := by
  intro b hb
  unfold sha1 at hb
  simp only [List.append_assoc, List.mem_append] at hb
  rcases hb with h | h | h | h | h <;> exact bytesOfWord_lt _ b h

theorem sha1DerHeader_lt : ∀ b ∈ sha1DerHeader, b < 256 := by decide

theorem emsaEncode_ok (digest : List Nat) (emLen : Nat) (hd : digest.length = 20)
    (hlen : 46 ≤ emLen) :
    emsaEncode digest emLen =
      .ok ([0, 1] ++ List.replicate (emLen - 38) 255 ++ [0] ++ (sha1DerHeader ++ digest)) := by
  have hdi : (sha1DerHeader ++ digest).length = 35 := by
    simp [sha1DerHeader, hd]
  simp only [emsaEncode, hdi]
  rw [if_neg (by omega), show emLen - 35 - 3 = emLen - 38 by omega]

theorem emsaBlock_spec (digest : List Nat) (emLen : Nat) (hd : digest.length = 20)
    (hdb : ∀ b ∈ digest, b < 256) (hlen : 46 ≤ emLen) :
    ([0, 1] ++ List.replicate (emLen - 38) 255 ++ [0] ++ (sha1DerHeader ++ digest)).length
        = emLen ∧
    (∀ b ∈ [0, 1] ++ List.replicate (emLen - 38) 255 ++ [0] ++ (sha1DerHeader ++ digest),
        b < 256) ∧
    bytes_to_long ([0, 1] ++ List.replicate (emLen - 38) 255 ++ [0] ++
        (sha1DerHeader ++ digest)) < 256 ^ (emLen - 1) := by
  have hlen' : ([0, 1] ++ List.replicate (emLen - 38) 255 ++ [0] ++
      (sha1DerHeader ++ digest)).length = emLen := by
    simp [sha1DerHeader, hd]
    omega
  have hbytes : ∀ b ∈ [0, 1] ++ List.replicate (emLen - 38) 255 ++ [0] ++
      (sha1DerHeader ++ digest), b < 256 := by
    intro b hb
    simp only [List.append_assoc, List.mem_append] at hb
    rcases hb with h | h | h | h | h
    · simp at h; omega
    · rw [List.mem_replicate] at h; omega
    · simp at h; omega
    · exact sha1DerHeader_lt b h
    · exact hdb b h
  refine ⟨hlen', hbytes, ?_⟩
  have hshape : [0, 1] ++ List.replicate (emLen - 38) 255 ++ [0] ++
      (sha1DerHeader ++ digest) = 0 :: (1 :: List.replicate (emLen - 38) 255 ++ [0] ++
      (sha1DerHeader ++ digest)) := by
    simp
  rw [hshape, bytes_to_long_zero_cons]
  have htail : (1 :: List.replicate (emLen - 38) 255 ++ [0] ++
      (sha1DerHeader ++ digest)).length = emLen - 1 := by
    simp [sha1DerHeader, hd]
    omega
  have := bytes_to_long_lt (1 :: List.replicate (emLen - 38) 255 ++ [0] ++
      (sha1DerHeader ++ digest)) (by
    intro b hb
    apply hbytes
    rw [hshape]
    simp only [List.mem_cons]
    exact Or.inr hb)
  rwa [htail] at this

theorem keychecks_roundtrip (n e d p q u : Nat) (hk : KeyChecks n e d p q u) :
    ∀ m, m ^ (e * d) ≡ m [MOD n] := by
  obtain ⟨hg, he1, hen, hodd, hd1, hdn, hpq, hp, hq, hlcm, hu1, huq, hpu⟩ := hk
  intro m
  have hpq' : p ≠ q := by
    intro h
    subst h
    rw [Nat.gcd_self] at hg
    have := hp.two_le
    omega
  have h := rsa_roundtrip p q e d hp hq hpq' hlcm (by omega) (by omega) m
  rwa [hpq] at h

theorem pow256_byteLength (n : Nat) (hn : 0 < n) : 256 ^ (byteLength n - 1) ≤ n := by
  have h8 : (256 : Nat) = 2 ^ 8 := by norm_num
  rw [h8, ← pow_mul]
  have hb := byteLength_lower n hn
  have : 8 * (byteLength n - 1) = 8 * byteLength n - 8 := by omega
  rw [this]
  exact hb

theorem lt_pow256_byteLength (n : Nat) : n < 256 ^ byteLength n := by
  have h8 : (256 : Nat) = 2 ^ 8 := by norm_num
  rw [h8, ← pow_mul]
  exact byteLength_upper n

theorem pkcs1Sign_ok (n e d p q u : Nat) (hk : KeyChecks n e d p q u) (r : Nat)
    (hr : Nat.gcd r n = 1) (digest : List Nat) (hd : digest.length = 20)
    (hdb : ∀ b ∈ digest, b < 256) (h46 : 46 ≤ byteLength n) :
    ∃ em, emsaEncode digest (byteLength n) = .ok em ∧
      em.length = byteLength n ∧ (∀ b ∈ em, b < 256) ∧ bytes_to_long em < n ∧
      pkcs1Sign ⟨n, e, d, p, q, u⟩ r digest =
        .ok (long_to_bytes (bytes_to_long em ^ d % n) (byteLength n)) := by
  have hn1 : 1 < n := by
    obtain ⟨-, he1, hen, -⟩ := hk
    omega
  have hem := emsaEncode_ok digest (byteLength n) hd h46
  obtain ⟨hlen, hbytes, hlt⟩ := emsaBlock_spec digest (byteLength n) hd hdb h46
  set em := [0, 1] ++ List.replicate (byteLength n - 38) 255 ++ [0] ++
    (sha1DerHeader ++ digest) with hemdef
  have hemn : bytes_to_long em < n := by
    calc bytes_to_long em < 256 ^ (byteLength n - 1) := hlt
    _ ≤ n := pow256_byteLength n (by omega)
  refine ⟨em, hem, hlen, hbytes, hemn, ?_⟩
  unfold pkcs1Sign
  dsimp only
  rw [hem]
  show (rsaDecrypt ⟨n, e, d, p, q, u⟩ r (bytes_to_long em)).bind _ = _
  rw [rsaDecrypt_ok n e d p q u hk r (bytes_to_long em) hr hemn]
  rfl

theorem pkcs1Verify_of_sign (n e d p q u : Nat) (hk : KeyChecks n e d p q u)
    (digest : List Nat) (em : List Nat)
    (hem : emsaEncode digest (byteLength n) = .ok em)
    (hemlen : em.length = byteLength n) (hembytes : ∀ b ∈ em, b < 256)
    (hemn : bytes_to_long em < n) :
    pkcs1Verify n e digest (long_to_bytes (bytes_to_long em ^ d % n) (byteLength n)) =
      true := by
  have hn1 : 1 < n := by
    obtain ⟨-, he1, hen, -⟩ := hk
    omega
  have hk46 : 0 < byteLength n := byteLength_pos n (by omega)
  have hXlt : bytes_to_long em ^ d % n < 256 ^ byteLength n := by
    calc bytes_to_long em ^ d % n < n := Nat.mod_lt _ (by omega)
    _ < 256 ^ byteLength n := lt_pow256_byteLength n
  obtain ⟨hslen, hsval, hsbytes⟩ :=
    long_to_bytes_spec (bytes_to_long em ^ d % n) (byteLength n) hk46 hXlt
  unfold pkcs1Verify
  rw [if_neg (by omega)]
  rw [hem]
  rw [hsval, powMod_correct]
  have hroundtrip := keychecks_roundtrip n e d p q u hk (bytes_to_long em)
  have hred : (bytes_to_long em ^ d % n) ^ e ≡ (bytes_to_long em ^ d) ^ e [MOD n] :=
    (Nat.mod_modEq _ n).pow e
  have hde : (bytes_to_long em ^ d) ^ e = bytes_to_long em ^ (e * d) := by
    rw [← pow_mul, Nat.mul_comm]
  have hfinal : (bytes_to_long em ^ d % n) ^ e % n = bytes_to_long em := by
    unfold Nat.ModEq at hred
    rw [hred, hde]
    have h := hroundtrip
    unfold Nat.ModEq at h
    rw [h, Nat.mod_eq_of_lt hemn]
  rw [hfinal, long_to_bytes_of_bytes em (byteLength n) hk46 hemlen hembytes]
  simp

/-! ### Base64 round trip -/

theorem b64Val_b64Char : ∀ i, i < 64 → b64Val (b64Char i) = some i := by decide

theorem b64Char_ne_pad : ∀ i, i < 64 → b64Char i ≠ '=' := by decide

theorem b64Char_keeps : ∀ i, i < 64 →
    (b64Chars.contains (b64Char i) || (b64Char i = '=')) = true := by decide

theorem pad_keeps : (b64Chars.contains '=' || ('=' = '=')) = true := by decide

theorem b64encodeCore_filter : ∀ bs : List Nat, (∀ b ∈ bs, b < 256) →
    (b64encodeCore bs).filter (fun c => b64Chars.contains c || c = '=') = b64encodeCore bs
  | [], _ => rfl
  | [a], h => by
    have ha : a < 256 := h a (by simp)
    rw [b64encodeCore]
    rw [List.filter_cons_of_pos (by exact b64Char_keeps _ (by omega)),
      List.filter_cons_of_pos (by exact b64Char_keeps _ (by omega)),
      List.filter_cons_of_pos (by exact pad_keeps),
      List.filter_cons_of_pos (by exact pad_keeps)]
    rfl
  | [a, b], h => by
    have ha : a < 256 := h a (by simp)
    have hb : b < 256 := h b (by simp)
    rw [b64encodeCore]
    rw [List.filter_cons_of_pos (by exact b64Char_keeps _ (by omega)),
      List.filter_cons_of_pos (by exact b64Char_keeps _ (by omega)),
      List.filter_cons_of_pos (by exact b64Char_keeps _ (by omega)),
      List.filter_cons_of_pos (by exact pad_keeps)]
    rfl
  | a :: b :: c :: r1 :: rest, h => by
    have ha : a < 256 := h a (by simp)
    have hb : b < 256 := h b (by simp)
    have hc : c < 256 := h c (by simp)
    rw [b64encodeCore]
    rw [List.filter_cons_of_pos (by exact b64Char_keeps _ (by omega)),
      List.filter_cons_of_pos (by exact b64Char_keeps _ (by omega)),
      List.filter_cons_of_pos (by exact b64Char_keeps _ (by omega)),
      List.filter_cons_of_pos (by exact b64Char_keeps _ (by omega))]
    rw [b64encodeCore_filter (r1 :: rest) (fun x hx => h x (by simp [hx]))]
  | [a, b, c], h => by
    have ha : a < 256 := h a (by simp)
    have hb : b < 256 := h b (by simp)
    have hc : c < 256 := h c (by simp)
    rw [b64encodeCore]
    rw [List.filter_cons_of_pos (by exact b64Char_keeps _ (by omega)),
      List.filter_cons_of_pos (by exact b64Char_keeps _ (by omega)),
      List.filter_cons_of_pos (by exact b64Char_keeps _ (by omega)),
      List.filter_cons_of_pos (by exact b64Char_keeps _ (by omega))]
    rfl

theorem b64decodeCore_encodeCore : ∀ bs : List Nat, (∀ b ∈ bs, b < 256) →
    b64decodeCore (b64encodeCore bs) = .ok bs
  | [], _ => rfl
  | [a], h => by
    have ha : a < 256 := h a (by simp)
    rw [b64encodeCore, b64decodeCore]
    rw [if_neg (b64Char_ne_pad _ (by omega)), if_neg (b64Char_ne_pad _ (by omega))]
    rw [b64Val_b64Char _ (by omega), b64Val_b64Char _ (by omega)]
    simp only [reduceIte]
    congr 1
    have hv : a / 4 * 4 + a % 4 * 16 / 16 = a := by omega
    rw [hv]
  | [a, b], h => by
    have ha : a < 256 := h a (by simp)
    have hb : b < 256 := h b (by simp)
    rw [b64encodeCore, b64decodeCore]
    rw [if_neg (b64Char_ne_pad _ (by omega)), if_neg (b64Char_ne_pad _ (by omega))]
    rw [b64Val_b64Char _ (by omega), b64Val_b64Char _ (by omega)]
    dsimp only
    rw [if_neg (b64Char_ne_pad _ (by omega))]
    rw [b64Val_b64Char _ (by omega)]
    dsimp only
    simp only [reduceIte]
    congr 1
    have hv1 : a / 4 * 4 + (a % 4 * 16 + b / 16) / 16 = a := by omega
    have hv2 : (a % 4 * 16 + b / 16) % 16 * 16 + b % 16 * 4 / 4 = b := by omega
    rw [hv1, hv2]
  | a :: b :: c :: rest, h => by
    have ha : a < 256 := h a (by simp)
    have hb : b < 256 := h b (by simp)
    have hc : c < 256 := h c (by simp)
    rw [b64encodeCore, b64decodeCore]
    rw [if_neg (b64Char_ne_pad _ (by omega)), if_neg (b64Char_ne_pad _ (by omega))]
    rw [b64Val_b64Char _ (by omega), b64Val_b64Char _ (by omega)]
    dsimp only
    rw [if_neg (b64Char_ne_pad _ (by omega))]
    rw [b64Val_b64Char _ (by omega)]
    dsimp only
    rw [if_neg (b64Char_ne_pad _ (by omega))]
    rw [b64Val_b64Char _ (by omega)]
    dsimp only
    rw [b64decodeCore_encodeCore rest (fun x hx => h x (by simp [hx]))]
    have hv1 : a / 4 * 4 + (a % 4 * 16 + b / 16) / 16 = a := by omega
    have hv2 : (a % 4 * 16 + b / 16) % 16 * 16 + (b % 16 * 4 + c / 64) / 4 = b := by omega
    have hv3 : (b % 16 * 4 + c / 64) % 4 * 64 + c % 64 = c := by omega
    rw [hv1, hv2, hv3]

theorem b64decode_b64encode (bs : List Nat) (h : ∀ b ∈ bs, b < 256) :
    b64decode (b64encode bs) = .ok bs := by
  unfold b64decode b64encode
  have htl : (String.mk (b64encodeCore bs)).toList = b64encodeCore bs := rfl
  rw [htl, b64encodeCore_filter bs h, b64decodeCore_encodeCore bs h]

/-! ### `_make_sign` composition -/

theorem make_sign_ok (n e d p q u : Nat) (hk : KeyChecks n e d p q u) (r : Nat)
    (hr : Nat.gcd r n = 1) (data : JsonVal) (h46 : 46 ≤ byteLength n) :
    ∃ em sig,
      emsaEncode (sha1 (serializeJson data)) (byteLength n) = .ok em ∧
      sig = long_to_bytes (bytes_to_long em ^ d % n) (byteLength n) ∧
      pkcs1Sign ⟨n, e, d, p, q, u⟩ r (sha1 (serializeJson data)) = .ok sig ∧
      make_sign ⟨n, e, d, p, q, u⟩ r data = .ok (b64encode sig) ∧
      sig.length = byteLength n ∧ (∀ b ∈ sig, b < 256) ∧
      b64decode (b64encode sig) = .ok sig ∧
      pkcs1Verify n e (sha1 (serializeJson data)) sig = true := by
  have hn1 : 1 < n := by
    obtain ⟨-, he1, hen, -⟩ := hk
    omega
  have hd20 := sha1_length (serializeJson data)
  have hdb := sha1_lt (serializeJson data)
  obtain ⟨em, hem, hemlen, hembytes, hemn, hsig⟩ :=
    pkcs1Sign_ok n e d p q u hk r hr (sha1 (serializeJson data)) hd20 hdb h46
  set sig := long_to_bytes (bytes_to_long em ^ d % n) (byteLength n) with hsigdef
  have hXlt : bytes_to_long em ^ d % n < 256 ^ byteLength n := by
    calc bytes_to_long em ^ d % n < n := Nat.mod_lt _ (by omega)
    _ < 256 ^ byteLength n := lt_pow256_byteLength n
  obtain ⟨hslen, hsval, hsbytes⟩ :=
    long_to_bytes_spec (bytes_to_long em ^ d % n) (byteLength n)
      (byteLength_pos n (by omega)) hXlt
  refine ⟨em, sig, hem, rfl, hsig, ?_, hslen, hsbytes, b64decode_b64encode sig hsbytes,
    pkcs1Verify_of_sign n e d p q u hk (sha1 (serializeJson data)) em hem hemlen
      hembytes hemn⟩
  unfold make_sign
  rw [hsig]
  rfl

theorem emsaEncode_err (digest : List Nat) (emLen : Nat) (hd : digest.length = 20)
    (hlen : emLen < 46) :
    emsaEncode digest emLen = .error (.typeError "Selected hash algorithm has a too long digest") := by
  have hdi : (sha1DerHeader ++ digest).length = 35 := by
    simp [sha1DerHeader, hd]
  simp only [emsaEncode, hdi]
  rw [if_pos (by omega)]

theorem make_sign_small (key : RsaKey) (r : Nat) (data : JsonVal)
    (h : byteLength key.n < 46) :
    make_sign key r data =
      .error (.typeError "Selected hash algorithm has a too long digest") := by
  unfold make_sign pkcs1Sign
  dsimp only
  rw [emsaEncode_err (sha1 (serializeJson data)) (byteLength key.n)
    (sha1_length (serializeJson data)) h]
  rfl

/-! ### Key-loader structure -/

theorem except_bind_ok {α β ε : Type} (a : α) (f : α → Except ε β) :
    (Except.ok a >>= f : Except ε β) = f a := rfl

theorem except_bind_err {α β ε : Type} (e : ε) (f : α → Except ε β) :
    (Except.error e >>= f : Except ε β) = Except.error e := rfl

theorem except_bind_ok2 {α β ε : Type} (a : α) (f : α → Except ε β) :
    Except.bind (Except.ok a) f = f a := rfl

theorem except_bind_err2 {α β ε : Type} (e : ε) (f : α → Except ε β) :
    Except.bind (Except.error e) f = Except.error e := rfl

theorem convert_eq_bind (doc : XmlNode) :
    convert_xml_key_to_pem doc = (xmlKeyComponents doc).bind
      (fun t => construct t.1 t.2.1 t.2.2.1 t.2.2.2.1 t.2.2.2.2) := by
  unfold convert_xml_key_to_pem xmlKeyComponents
  cases h1 : firstElementByTagName "Modulus" doc with
  | error er => simp only [except_bind_ok, except_bind_err, except_bind_ok2, except_bind_err2]
  | ok x1 =>
    simp only [except_bind_ok, except_bind_err, except_bind_ok2, except_bind_err2]
    cases h2 : process_xml_node x1.children with
    | error er => simp only [except_bind_ok, except_bind_err, except_bind_ok2, except_bind_err2]
    | ok m =>
      simp only [except_bind_ok, except_bind_err, except_bind_ok2, except_bind_err2]
      cases h3 : firstElementByTagName "Exponent" doc with
      | error er => simp only [except_bind_ok, except_bind_err, except_bind_ok2, except_bind_err2]
      | ok x2 =>
        simp only [except_bind_ok, except_bind_err, except_bind_ok2, except_bind_err2]
        cases h4 : process_xml_node x2.children with
        | error er => simp only [except_bind_ok, except_bind_err, except_bind_ok2, except_bind_err2]
        | ok e =>
          simp only [except_bind_ok, except_bind_err, except_bind_ok2, except_bind_err2]
          cases h5 : firstElementByTagName "D" doc with
          | error er => simp only [except_bind_ok, except_bind_err, except_bind_ok2, except_bind_err2]
          | ok x3 =>
            simp only [except_bind_ok, except_bind_err, except_bind_ok2, except_bind_err2]
            cases h6 : process_xml_node x3.children with
            | error er => simp only [except_bind_ok, except_bind_err, except_bind_ok2, except_bind_err2]
            | ok d =>
              simp only [except_bind_ok, except_bind_err, except_bind_ok2, except_bind_err2]
              cases h7 : firstElementByTagName "P" doc with
              | error er => simp only [except_bind_ok, except_bind_err, except_bind_ok2, except_bind_err2]
              | ok x4 =>
                simp only [except_bind_ok, except_bind_err, except_bind_ok2, except_bind_err2]
                cases h8 : process_xml_node x4.children with
                | error er => simp only [except_bind_ok, except_bind_err, except_bind_ok2, except_bind_err2]
                | ok p =>
                  simp only [except_bind_ok, except_bind_err, except_bind_ok2, except_bind_err2]
                  cases h9 : firstElementByTagName "Q" doc with
                  | error er => simp only [except_bind_ok, except_bind_err, except_bind_ok2, except_bind_err2]
                  | ok x5 =>
                    simp only [except_bind_ok, except_bind_err, except_bind_ok2, except_bind_err2]
                    cases h10 : process_xml_node x5.children with
                    | error er => simp only [except_bind_ok, except_bind_err, except_bind_ok2, except_bind_err2]
                    | ok q =>
                      simp only [except_bind_ok, except_bind_err, except_bind_ok2, except_bind_err2]
                      rfl

theorem convert_ok_steps (doc : XmlNode) (key : RsaKey)
    (h : convert_xml_key_to_pem doc = .ok key) :
    ∃ x1 m x2 e x3 d x4 p x5 q,
      firstElementByTagName "Modulus" doc = .ok x1 ∧ process_xml_node x1.children = .ok m ∧
      firstElementByTagName "Exponent" doc = .ok x2 ∧ process_xml_node x2.children = .ok e ∧
      firstElementByTagName "D" doc = .ok x3 ∧ process_xml_node x3.children = .ok d ∧
      firstElementByTagName "P" doc = .ok x4 ∧ process_xml_node x4.children = .ok p ∧
      firstElementByTagName "Q" doc = .ok x5 ∧ process_xml_node x5.children = .ok q ∧
      construct m e d p q = .ok key := by
  unfold convert_xml_key_to_pem at h
  cases h1 : firstElementByTagName "Modulus" doc with
  | error er =>
    rw [h1] at h
    simp only [except_bind_ok, except_bind_err, except_bind_ok2, except_bind_err2] at h
    exact Except.noConfusion h
  | ok x1 =>
    rw [h1] at h
    simp only [except_bind_ok, except_bind_err, except_bind_ok2, except_bind_err2] at h
    cases h2 : process_xml_node x1.children with
    | error er =>
      rw [h2] at h
      simp only [except_bind_ok, except_bind_err, except_bind_ok2, except_bind_err2] at h
      exact Except.noConfusion h
    | ok m =>
      rw [h2] at h
      simp only [except_bind_ok, except_bind_err, except_bind_ok2, except_bind_err2] at h
      cases h3 : firstElementByTagName "Exponent" doc with
      | error er =>
        rw [h3] at h
        simp only [except_bind_ok, except_bind_err, except_bind_ok2, except_bind_err2] at h
        exact Except.noConfusion h
      | ok x2 =>
        rw [h3] at h
        simp only [except_bind_ok, except_bind_err, except_bind_ok2, except_bind_err2] at h
        cases h4 : process_xml_node x2.children with
        | error er =>
          rw [h4] at h
          simp only [except_bind_ok, except_bind_err, except_bind_ok2, except_bind_err2] at h
          exact Except.noConfusion h
        | ok e =>
          rw [h4] at h
          simp only [except_bind_ok, except_bind_err, except_bind_ok2, except_bind_err2] at h
          cases h5 : firstElementByTagName "D" doc with
          | error er =>
            rw [h5] at h
            simp only [except_bind_ok, except_bind_err, except_bind_ok2, except_bind_err2] at h
            exact Except.noConfusion h
          | ok x3 =>
            rw [h5] at h
            simp only [except_bind_ok, except_bind_err, except_bind_ok2, except_bind_err2] at h
            cases h6 : process_xml_node x3.children with
            | error er =>
              rw [h6] at h
              simp only [except_bind_ok, except_bind_err, except_bind_ok2, except_bind_err2] at h
              exact Except.noConfusion h
            | ok d =>
              rw [h6] at h
              simp only [except_bind_ok, except_bind_err, except_bind_ok2, except_bind_err2] at h
              cases h7 : firstElementByTagName "P" doc with
              | error er =>
                rw [h7] at h
                simp only [except_bind_ok, except_bind_err, except_bind_ok2, except_bind_err2] at h
                exact Except.noConfusion h
              | ok x4 =>
                rw [h7] at h
                simp only [except_bind_ok, except_bind_err, except_bind_ok2, except_bind_err2] at h
                cases h8 : process_xml_node x4.children with
                | error er =>
                  rw [h8] at h
                  simp only [except_bind_ok, except_bind_err, except_bind_ok2, except_bind_err2] at h
                  exact Except.noConfusion h
                | ok p =>
                  rw [h8] at h
                  simp only [except_bind_ok, except_bind_err, except_bind_ok2, except_bind_err2] at h
                  cases h9 : firstElementByTagName "Q" doc with
                  | error er =>
                    rw [h9] at h
                    simp only [except_bind_ok, except_bind_err, except_bind_ok2, except_bind_err2] at h
                    exact Except.noConfusion h
                  | ok x5 =>
                    rw [h9] at h
                    simp only [except_bind_ok, except_bind_err, except_bind_ok2, except_bind_err2] at h
                    cases h10 : process_xml_node x5.children with
                    | error er =>
                      rw [h10] at h
                      simp only [except_bind_ok, except_bind_err, except_bind_ok2, except_bind_err2] at h
                      exact Except.noConfusion h
                    | ok q =>
                      rw [h10] at h
                      simp only [except_bind_ok, except_bind_err, except_bind_ok2, except_bind_err2] at h
                      exact ⟨x1, m, x2, e, x3, d, x4, p, x5, q, rfl, h2, rfl, h4, rfl, h6, rfl, h8, rfl, h10, h⟩

theorem firstElement_of_empty (nm : String) (doc : XmlNode)
    (h : elementsByTagName nm doc = []) :
    firstElementByTagName nm doc = .error .indexError := by
  unfold firstElementByTagName
  rw [h]

theorem firstElement_head (nm : String) (doc : XmlNode) :
    firstElementByTagName nm doc =
      match (elementsByTagName nm doc).head? with
      | none => .error .indexError
      | some x => .ok x := by
  unfold firstElementByTagName
  cases elementsByTagName nm doc <;> rfl

theorem rc_foldl_filterMap (nl : List XmlNode) (acc : List String) :
    nl.foldl (fun acc node => match node with | .text s => acc ++ [s] | _ => acc) acc =
      acc ++ nl.filterMap (fun node => match node with | .text s => some s | _ => none) := by
  induction nl generalizing acc with
  | nil => simp
  | cons x t ih =>
    cases x <;> simp [List.foldl_cons, ih] <;> rw [ih] <;> simp

theorem elementsByTagNameList_append (nm : String) (l1 l2 : List XmlNode) :
    elementsByTagNameList nm (l1 ++ l2) =
      elementsByTagNameList nm l1 ++ elementsByTagNameList nm l2 := by
  induction l1 with
  | nil => simp [elementsByTagNameList]
  | cons x t ih =>
    rw [List.cons_append, elementsByTagNameList, elementsByTagNameList, ih,
      List.append_assoc]

theorem loader_heads_det (doc1 doc2 : XmlNode)
    (h : ∀ nm ∈ requiredNames,
      (elementsByTagName nm doc1).head? = (elementsByTagName nm doc2).head?) :
    convert_xml_key_to_pem doc1 = convert_xml_key_to_pem doc2 := by
  have f : ∀ nm ∈ requiredNames,
      firstElementByTagName nm doc1 = firstElementByTagName nm doc2 := by
    intro nm hnm
    rw [firstElement_head, firstElement_head, h nm hnm]
  have f1 := f "Modulus" (by simp [requiredNames])
  have f2 := f "Exponent" (by simp [requiredNames])
  have f3 := f "D" (by simp [requiredNames])
  have f4 := f "P" (by simp [requiredNames])
  have f5 := f "Q" (by simp [requiredNames])
  unfold convert_xml_key_to_pem
  rw [f1, f2, f3, f4, f5]

theorem loader_graft (t : String) (cs1 cs2 : List XmlNode) (x : XmlNode)
    (ht : t ∉ requiredNames)
    (hx : ∀ nm ∈ requiredNames, elementsByTagName nm x = []) :
    convert_xml_key_to_pem (.elem t (cs1 ++ x :: cs2)) =
      convert_xml_key_to_pem (.elem t (cs1 ++ cs2)) := by
  apply loader_heads_det
  intro nm hnm
  have htnm : t ≠ nm := fun heq => ht (heq ▸ hnm)
  have hlist : elementsByTagNameList nm (cs1 ++ x :: cs2) =
      elementsByTagNameList nm (cs1 ++ cs2) := by
    rw [show cs1 ++ x :: cs2 = cs1 ++ ([x] ++ cs2) from by simp,
      elementsByTagNameList_append, elementsByTagNameList_append,
      elementsByTagNameList, elementsByTagNameList]
    rw [hx nm hnm]
    simp [elementsByTagNameList_append]
  rw [elementsByTagName, elementsByTagName, hlist, if_neg htnm, if_neg htnm]

/-! ### Primality certificates and the concrete keys -/

theorem zmod_pow_cast (a n m : Nat) :
    (((a : Nat) : ZMod m)) ^ n = ((powMod a n m : Nat) : ZMod m) := by
  rw [powMod_correct, ZMod.natCast_mod, Nat.cast_pow]

theorem zmod_natCast_ne_one (c m : Nat) (hc : c < m) (h1 : 1 < m) (hne : c ≠ 1) :
    ((c : Nat) : ZMod m) ≠ 1 := by
  haveI : Fact (1 < m) := ⟨h1⟩
  haveI : NeZero m := ⟨by omega⟩
  intro h
  have hv := congrArg ZMod.val h
  rw [ZMod.val_natCast, ZMod.val_one, Nat.mod_eq_of_lt hc] at hv
  exact hne hv

theorem lucas_cert (P A K M : Nat) (hfact : 2 ^ M * K = P - 1) (hK : Nat.Prime K)
    (h1 : powMod A (P - 1) P = 1)
    (c2 : powMod A ((P - 1) / 2) P ≠ 1) (hc2 : powMod A ((P - 1) / 2) P < P)
    (cK : powMod A ((P - 1) / K) P ≠ 1) (hcK : powMod A ((P - 1) / K) P < P)
    (hP : 1 < P) : Nat.Prime P := by
  apply lucas_primality P ((A : Nat) : ZMod P)
  · rw [zmod_pow_cast, h1, Nat.cast_one]
  · intro r hr hdvd
    have hr2 : r = 2 ∨ r = K := by
      rw [← hfact] at hdvd
      rcases (Nat.Prime.dvd_mul hr).mp hdvd with h | h
      · exact Or.inl ((Nat.prime_dvd_prime_iff_eq hr Nat.prime_two).mp (hr.dvd_of_dvd_pow h))
      · exact Or.inr ((Nat.prime_dvd_prime_iff_eq hr hK).mp h)
    rcases hr2 with rfl | rfl
    · rw [zmod_pow_cast]
      exact zmod_natCast_ne_one _ _ hc2 hP c2
    · rw [zmod_pow_cast]
      exact zmod_natCast_ne_one _ _ hcK hP cK

theorem bigKey_p_prime : Nat.Prime 1422155861923544860556546041195486922398189905386382819329 := by
  apply lucas_cert _ 3 29 185
  · decide
  · norm_num
  · decide
  · decide
  · decide
  · decide
  · decide
  · decide

theorem bigKey_q_prime : Nat.Prime 22460254646930467108099934029914931395116240574722873491457 := by
  apply lucas_cert _ 3 229 186
  · decide
  · norm_num
  · decide
  · decide
  · decide
  · decide
  · decide
  · decide

theorem bigKey_checks :
    KeyChecks bigKey.n bigKey.e bigKey.d bigKey.p bigKey.q bigKey.u := by
  unfold KeyChecks bigKey
  exact ⟨by decide, by decide, by decide, by decide, by decide, by decide, by decide,
    bigKey_p_prime, bigKey_q_prime, by decide, by decide, by decide, by decide⟩

theorem bigKey_pyinverse : pyinverse bigKey.p bigKey.q = bigKey.u := by decide

theorem bigKey_construct :
    construct bigKey.n bigKey.e bigKey.d bigKey.p bigKey.q = .ok bigKey := by
  have h := construct_ok_of bigKey.n bigKey.e bigKey.d bigKey.p bigKey.q
    (by rw [bigKey_pyinverse]; exact bigKey_checks)
  rw [bigKey_pyinverse] at h
  exact h

theorem bigKey_byteLength : byteLength bigKey.n = 48 := by decide

theorem except_pure_bind {α β ε : Type} (a : α) (f : α → Except ε β) :
    ((pure a : Except ε α) >>= f) = f a := rfl

/-! ### The claims -/

/-- C1: for every key loaded from valid components `(n, e, d, p, q)` (the
`RSA.construct` checks pass; the modulus is large enough for the SHA-1
EMSA encoding, i.e. at least 46 bytes, without which no token is produced
at all — see C9) and every JSON payload, the token produced by
`_make_sign`, after base64 decoding, verifies against the public key
`(n, e)` under PKCS#1 v1.5 verification over the SHA-1 digest of the
payload's canonical JSON serialization. -/
theorem spec_C1 (n e d p q : Nat) (key : RsaKey) (r : Nat) (data : JsonVal)
    (hkey : construct n e d p q = Except.ok key) (h46 : 46 ≤ byteLength n)
    (hr : Nat.gcd r n = 1) :
    ∃ tok sig, make_sign key r data = .ok tok ∧ b64decode tok = .ok sig ∧
      pkcs1Verify n e (sha1 (serializeJson data)) sig = true := by
  obtain ⟨hkeyeq, hchecks⟩ := construct_eq_ok n e d p q key hkey
  subst hkeyeq
  obtain ⟨em, sig, hem, hsigdef, hpk, hms, hlen, hbytes, hdec, hver⟩ :=
    make_sign_ok n e d p q (pyinverse p q) hchecks r hr data h46
  exact ⟨b64encode sig, sig, hms, hdec, hver⟩

/-- C1 witness: the concrete 384-bit key and the spec's concrete payload. -/
theorem spec_C1_witness :
    construct bigKey.n bigKey.e bigKey.d bigKey.p bigKey.q = .ok bigKey ∧
    46 ≤ byteLength bigKey.n ∧ Nat.gcd 12345 bigKey.n = 1 ∧
    ∃ tok sig, make_sign bigKey 12345 testPayload = .ok tok ∧
      b64decode tok = .ok sig ∧
      pkcs1Verify bigKey.n bigKey.e (sha1 (serializeJson testPayload)) sig = true :=
  ⟨bigKey_construct, by decide, by decide,
   spec_C1 bigKey.n bigKey.e bigKey.d bigKey.p bigKey.q bigKey 12345 testPayload
     bigKey_construct (by decide) (by decide)⟩

/-- C2: the byte sequence `_make_sign` hashes and signs is identical to the
byte sequence `_request_builder` places in the outbound request body: both
are the UTF-8 encoding of the same `json.dumps` serialization, and the
`Sign` header of the built request is the base64 signature over the SHA-1
digest of exactly the transmitted body. -/
theorem spec_C2 (key : RsaKey) (r : Nat) (url method : String) (data : JsonVal)
    (req : HttpRequest) (hreq : buildRequest key r url data method = .ok req) :
    req.body = serializeJson data ∧
    ∃ sig, pkcs1Sign key r (sha1 req.body) = .ok sig ∧
      req.signHeader = b64encode sig := by
  unfold buildRequest make_sign at hreq
  cases hs : pkcs1Sign key r (sha1 (serializeJson data)) with
  | error er =>
    rw [hs] at hreq
    simp only [except_bind_err] at hreq
    exact Except.noConfusion hreq
  | ok sig =>
    rw [hs] at hreq
    simp only [except_bind_ok, except_pure_bind] at hreq
    cases hreq
    exact ⟨rfl, sig, hs, rfl⟩

/-- C2 witness: the concrete request built for the spec's payload. -/
theorem spec_C2_witness :
    (⟨"https://pep.shaparak.ir/Api/v1/Payment/GetToken", "POST",
      "rxzf+5DLIFxQ8cHwBRpNz5lb00fKgT1NoHn+BRpk8uB+EUO3h2gvrhIaRQ1XN5Rw",
      [123, 34, 65, 109, 111, 117, 110, 116, 34, 58, 32, 34, 49, 48, 48, 48, 34, 44, 32, 34, 73, 110, 118, 111, 105, 99, 101, 78, 117, 109, 98, 101, 114, 34, 58, 32, 34, 65, 49, 34, 125]⟩ : HttpRequest).body = serializeJson testPayload ∧
    ∃ sig, pkcs1Sign bigKey 12345 (sha1 (⟨"https://pep.shaparak.ir/Api/v1/Payment/GetToken", "POST",
      "rxzf+5DLIFxQ8cHwBRpNz5lb00fKgT1NoHn+BRpk8uB+EUO3h2gvrhIaRQ1XN5Rw",
      [123, 34, 65, 109, 111, 117, 110, 116, 34, 58, 32, 34, 49, 48, 48, 48, 34, 44, 32, 34, 73, 110, 118, 111, 105, 99, 101, 78, 117, 109, 98, 101, 114, 34, 58, 32, 34, 65, 49, 34, 125]⟩ : HttpRequest).body) = .ok sig ∧
      (⟨"https://pep.shaparak.ir/Api/v1/Payment/GetToken", "POST",
      "rxzf+5DLIFxQ8cHwBRpNz5lb00fKgT1NoHn+BRpk8uB+EUO3h2gvrhIaRQ1XN5Rw",
      [123, 34, 65, 109, 111, 117, 110, 116, 34, 58, 32, 34, 49, 48, 48, 48, 34, 44, 32, 34, 73, 110, 118, 111, 105, 99, 101, 78, 117, 109, 98, 101, 114, 34, 58, 32, 34, 65, 49, 34, 125]⟩ : HttpRequest).signHeader = b64encode sig :=
  spec_C2 bigKey 12345 "https://pep.shaparak.ir/Api/v1/Payment/GetToken" "POST"
    testPayload _ (by rfl)

/-- C3: for a fixed validly constructed key and fixed payload, `_make_sign`
is a deterministic function of key and payload: the blinding randomness `r`
drawn inside the library's RSA decryption does not influence the token, so
two invocations produce byte-identical results. -/
theorem spec_C3 (n e d p q : Nat) (key : RsaKey) (r1 r2 : Nat) (data : JsonVal)
    (hkey : construct n e d p q = Except.ok key)
    (h1 : Nat.gcd r1 n = 1) (h2 : Nat.gcd r2 n = 1) :
    make_sign key r1 data = make_sign key r2 data := by
  obtain ⟨hkeyeq, hchecks⟩ := construct_eq_ok n e d p q key hkey
  subst hkeyeq
  by_cases h46 : 46 ≤ byteLength n
  · obtain ⟨em1, sig1, hem1, hsig1, -, hms1, -⟩ :=
      make_sign_ok n e d p q (pyinverse p q) hchecks r1 h1 data h46
    obtain ⟨em2, sig2, hem2, hsig2, -, hms2, -⟩ :=
      make_sign_ok n e d p q (pyinverse p q) hchecks r2 h2 data h46
    rw [hms1, hms2]
    rw [hem1] at hem2
    cases hem2
    rw [hsig1, hsig2]
  · have hlt : byteLength n < 46 := by omega
    rw [make_sign_small _ r1 data hlt, make_sign_small _ r2 data hlt]

/-- C3 witness: two different blinding factors on the concrete key. -/
theorem spec_C3_witness :
    construct bigKey.n bigKey.e bigKey.d bigKey.p bigKey.q = .ok bigKey ∧
    Nat.gcd 12345 bigKey.n = 1 ∧ Nat.gcd 54321 bigKey.n = 1 ∧
    make_sign bigKey 12345 testPayload = make_sign bigKey 54321 testPayload :=
  ⟨bigKey_construct, by decide, by decide,
   spec_C3 bigKey.n bigKey.e bigKey.d bigKey.p bigKey.q bigKey 12345 54321
     testPayload bigKey_construct (by decide) (by decide)⟩

/-- C4: `_make_sign` computes the 20-byte (160-bit) SHA-1 digest of the
UTF-8 canonical bytes in one pass, applies PKCS#1 v1.5 with the private
key — the raw signature block satisfies the RSASP1 equation
`sig = em ^ d mod n` and its byte length equals the byte length of the
modulus — and returns the block's base64 text encoding. -/
theorem spec_C4 (n e d p q : Nat) (key : RsaKey) (r : Nat) (data : JsonVal)
    (hkey : construct n e d p q = Except.ok key) (h46 : 46 ≤ byteLength n)
    (hr : Nat.gcd r n = 1) :
    (sha1 (serializeJson data)).length = 20 ∧
    ∃ em sig, emsaEncode (sha1 (serializeJson data)) (byteLength n) = .ok em ∧
      pkcs1Sign key r (sha1 (serializeJson data)) = .ok sig ∧
      bytes_to_long sig = bytes_to_long em ^ d % n ∧
      sig.length = byteLength n ∧
      make_sign key r data = .ok (b64encode sig) := by
  obtain ⟨hkeyeq, hchecks⟩ := construct_eq_ok n e d p q key hkey
  subst hkeyeq
  have hn1 : 1 < n := by
    obtain ⟨-, he1, hen, -⟩ := hchecks
    omega
  obtain ⟨em, sig, hem, hsigdef, hpk, hms, hlen, hbytes, hdec, hver⟩ :=
    make_sign_ok n e d p q (pyinverse p q) hchecks r hr data h46
  refine ⟨sha1_length _, em, sig, hem, hpk, ?_, hlen, hms⟩
  rw [hsigdef]
  have hXlt : bytes_to_long em ^ d % n < 256 ^ byteLength n := by
    calc bytes_to_long em ^ d % n < n := Nat.mod_lt _ (by omega)
    _ < 256 ^ byteLength n := lt_pow256_byteLength n
  exact (long_to_bytes_spec _ _ (byteLength_pos n (by omega)) hXlt).2.1

/-- C4 witness: the concrete key and payload. -/
theorem spec_C4_witness :
    construct bigKey.n bigKey.e bigKey.d bigKey.p bigKey.q = .ok bigKey ∧
    46 ≤ byteLength bigKey.n ∧ Nat.gcd 12345 bigKey.n = 1 ∧
    ((sha1 (serializeJson testPayload)).length = 20 ∧
     ∃ em sig,
       emsaEncode (sha1 (serializeJson testPayload)) (byteLength bigKey.n) = .ok em ∧
       pkcs1Sign bigKey 12345 (sha1 (serializeJson testPayload)) = .ok sig ∧
       bytes_to_long sig = bytes_to_long em ^ bigKey.d % bigKey.n ∧
       sig.length = byteLength bigKey.n ∧
       make_sign bigKey 12345 testPayload = .ok (b64encode sig)) :=
  ⟨bigKey_construct, by decide, by decide,
   spec_C4 bigKey.n bigKey.e bigKey.d bigKey.p bigKey.q bigKey 12345 testPayload
     bigKey_construct (by decide) (by decide)⟩

/-- C5 counterexample: the claim requires failure whenever `d * e` is not a
modular inverse pair with respect to Euler's totient `(p-1)(q-1)`, but the
code only checks the Carmichael value `lcm(p-1, q-1)`: the components
`(65, 7, 19, 5, 13)` violate the claimed totient invariant
(`7 * 19 = 133 ≢ 1 mod 48`) yet `RSA.construct` accepts them and a key
object is returned. -/
theorem spec_C5_counterexample :
    construct 65 7 19 5 13 = .ok tinyKey ∧ 7 * 19 % ((5 - 1) * (13 - 1)) ≠ 1 :=
  ⟨rfl, by decide⟩

/-- C5 (amended): loading fails, with no key object returned, whenever the
decoded components violate the invariants the code actually enforces —
here stated for `modulus ≠ p * q` or `e * d ≢ 1 mod lcm(p-1, q-1)` (the
Carmichael value, not Euler's totient); the failure is the caught
exception re-raised as `SystemExit`, not a distinct `KeyValidationError`
type. -/
theorem spec_C5 (doc : XmlNode) (n e d p q : Nat)
    (hcomp : xmlKeyComponents doc = .ok (n, e, d, p, q))
    (hviol : p * q ≠ n ∨
      e * d % ((p - 1) * (q - 1) / Nat.gcd (p - 1) (q - 1)) ≠ 1) :
    ∃ er, convert_xml_key_to_pem doc = .error er := by
  rw [convert_eq_bind, hcomp]
  simp only [except_bind_ok2]
  cases hc : construct n e d p q with
  | error er => exact ⟨er, rfl⟩
  | ok k =>
    exfalso
    obtain ⟨-, hchecks⟩ := construct_eq_ok n e d p q k hc
    obtain ⟨-, -, -, -, -, -, hpq, -, -, hlcm, -⟩ := hchecks
    rcases hviol with h | h
    · exact h hpq
    · exact h hlcm

/-- C5 witness: a document whose `Modulus` decodes to 66 while
`p * q = 65`. -/
theorem spec_C5_witness :
    xmlKeyComponents docBadModulus = .ok (66, 7, 19, 5, 13) ∧
    (5 * 13 ≠ 66 ∨
      7 * 19 % ((5 - 1) * (13 - 1) / Nat.gcd (5 - 1) (13 - 1)) ≠ 1) ∧
    ∃ er, convert_xml_key_to_pem docBadModulus = .error er :=
  ⟨rfl, Or.inl (by decide),
   spec_C5 docBadModulus 66 7 19 5 13 rfl (Or.inl (by decide))⟩

/-- C6 counterexample: a document missing `Modulus` and a document missing
`D` fail with the same bare `IndexError` (re-raised as `SystemExit`); the
error does not name the missing field, contradicting the claim that
loading fails with a `MissingField` error naming the exact field. -/
theorem spec_C6_counterexample :
    elementsByTagName "Modulus" docNoModulus = [] ∧
    elementsByTagName "D" docNoD = [] ∧
    convert_xml_key_to_pem docNoModulus = .error .indexError ∧
    convert_xml_key_to_pem docNoD = .error .indexError :=
  ⟨rfl, rfl, rfl, rfl⟩

/-- C6 (amended): for every document missing one of the five required
elements, loading does fail (no key is returned) — but through the
anonymous `IndexError` of `getElementsByTagName(...)[0]` wrapped in
`SystemExit`, which carries no field name. -/
theorem spec_C6 (doc : XmlNode)
    (h : ∃ nm ∈ requiredNames, elementsByTagName nm doc = []) :
    ∃ er, convert_xml_key_to_pem doc = .error er := by
  cases hc : convert_xml_key_to_pem doc with
  | error er => exact ⟨er, rfl⟩
  | ok key =>
    exfalso
    obtain ⟨x1, m, x2, e, x3, d, x4, p, x5, q, s1, -, s3, -, s5, -, s7, -, s9, -, -⟩ :=
      convert_ok_steps doc key hc
    obtain ⟨nm, hnm, hempty⟩ := h
    have herr := firstElement_of_empty nm doc hempty
    simp only [requiredNames, List.mem_cons, List.not_mem_nil, or_false] at hnm
    rcases hnm with rfl | rfl | rfl | rfl | rfl
    · rw [s1] at herr; exact Except.noConfusion herr
    · rw [s3] at herr; exact Except.noConfusion herr
    · rw [s5] at herr; exact Except.noConfusion herr
    · rw [s7] at herr; exact Except.noConfusion herr
    · rw [s9] at herr; exact Except.noConfusion herr

/-- C6 witness: the document missing `Modulus`. -/
theorem spec_C6_witness :
    (∃ nm ∈ requiredNames, elementsByTagName nm docNoModulus = []) ∧
    ∃ er, convert_xml_key_to_pem docNoModulus = .error er :=
  ⟨⟨"Modulus", by decide, rfl⟩, spec_C6 docNoModulus ⟨"Modulus", by decide, rfl⟩⟩

/-- C7: `_process_xml_node` concatenates exactly the text-node fragments of
the node list, in document order, skipping non-text nodes; base64-decodes
the concatenation; and interprets the decoded bytes as a big-endian
unsigned integer (positional value with the most significant byte
first). -/
theorem spec_C7 (nodelist : List XmlNode) :
    process_xml_node nodelist =
      (b64decode (String.join (nodelist.filterMap
        (fun node => match node with | .text s => some s | _ => none)))).map
        bigEndianVal := by
  unfold process_xml_node
  rw [rc_foldl_filterMap nodelist [], List.nil_append]
  dsimp only
  cases hb : b64decode (String.join (nodelist.filterMap
      (fun node => match node with | .text s => some s | _ => none))) with
  | error er => rfl
  | ok bs =>
    show Except.ok (bytes_to_long bs) = Except.ok (bigEndianVal bs)
    rw [bytes_to_long_eq_bigEndianVal]

/-- C8: the loader uses only the first element matching each required name
— its result is determined by the heads of the five
`getElementsByTagName` lists — and extra unrecognized elements are
ignored: inserting an element whose subtree contains none of the five
required names anywhere under a container root never changes the loader's
result (in particular it never causes failure). -/
theorem spec_C8 :
    (∀ doc1 doc2 : XmlNode,
      (∀ nm ∈ requiredNames,
        (elementsByTagName nm doc1).head? = (elementsByTagName nm doc2).head?) →
      convert_xml_key_to_pem doc1 = convert_xml_key_to_pem doc2) ∧
    (∀ (t : String) (cs1 cs2 : List XmlNode) (x : XmlNode), t ∉ requiredNames →
      (∀ nm ∈ requiredNames, elementsByTagName nm x = []) →
      convert_xml_key_to_pem (.elem t (cs1 ++ x :: cs2)) =
        convert_xml_key_to_pem (.elem t (cs1 ++ cs2))) :=
  ⟨loader_heads_det, loader_graft⟩

/-- C8 witness: the tiny-key document with a `Garbage` element inserted
loads identically to the plain one. -/
theorem spec_C8_witness :
    convert_xml_key_to_pem docTinyExtra = convert_xml_key_to_pem docTiny :=
  spec_C8.2 "RSAKeyValue"
    [.elem "Modulus" [.text "QQ=="], .elem "Exponent" [.text "Bw=="]]
    [.elem "D" [.text "Ew=="], .elem "P" [.text "BQ=="], .elem "Q" [.text "DQ=="]]
    (.elem "Garbage" [.text "ignored", .comment "extra"])
    (by decide)
    (by
      intro nm hnm
      simp only [requiredNames, List.mem_cons, List.not_mem_nil, or_false] at hnm
      rcases hnm with rfl | rfl | rfl | rfl | rfl <;> rfl)

/-- C9 counterexample: the claim says `_make_sign` never fails for a
validly constructed key, but the construct-accepted key
`(65, 7, 19, 5, 13)` has a 1-byte modulus, so `_EMSA_PKCS1_V1_5_ENCODE`
raises `TypeError` before any signature is produced. -/
theorem spec_C9_counterexample :
    construct 65 7 19 5 13 = .ok tinyKey ∧ Nat.gcd 2 tinyKey.n = 1 ∧
    make_sign tinyKey 2 testPayload =
      .error (.typeError "Selected hash algorithm has a too long digest") :=
  ⟨rfl, by decide, rfl⟩

/-- C9 (amended): `_make_sign` totally returns a token for every
JSON-serializable payload and every validly constructed key whose modulus
is at least 46 bytes (as any realistic RSA modulus is); the error branch
is reachable only through the EMSA length check for smaller moduli (and
the negligible non-invertible-blinding case, excluded by
`gcd(r, n) = 1`). -/
theorem spec_C9 (n e d p q : Nat) (key : RsaKey) (r : Nat) (data : JsonVal)
    (hkey : construct n e d p q = Except.ok key) (h46 : 46 ≤ byteLength n)
    (hr : Nat.gcd r n = 1) :
    ∃ tok, make_sign key r data = .ok tok := by
  obtain ⟨hkeyeq, hchecks⟩ := construct_eq_ok n e d p q key hkey
  subst hkeyeq
  obtain ⟨em, sig, -, -, -, hms, -⟩ :=
    make_sign_ok n e d p q (pyinverse p q) hchecks r hr data h46
  exact ⟨b64encode sig, hms⟩

/-- C9 witness: the concrete 384-bit key signs the spec's payload. -/
theorem spec_C9_witness :
    construct bigKey.n bigKey.e bigKey.d bigKey.p bigKey.q = .ok bigKey ∧
    46 ≤ byteLength bigKey.n ∧ Nat.gcd 12345 bigKey.n = 1 ∧
    ∃ tok, make_sign bigKey 12345 testPayload = .ok tok :=
  ⟨bigKey_construct, by decide, by decide,
   spec_C9 bigKey.n bigKey.e bigKey.d bigKey.p bigKey.q bigKey 12345 testPayload
     bigKey_construct (by decide) (by decide)⟩

/-- C10: once the signed request is built, `_request_builder` judges the
parsed response body: a falsy `IsSuccess` raises `ApiError(400,
response['Message'])`, a truthy one returns the parsed dict, and an
`HTTPError` from the transport is not propagated — its body is judged by
exactly the same rule. -/
theorem spec_C10 (key : RsaKey) (r : Nat) (url method : String) (data : JsonVal)
    (body : JsonVal) (hsign : (make_sign key r data).isOk = true) :
    (∀ v m, getItem body "IsSuccess" = .ok v → pyTruthy v = false →
        getItem body "Message" = .ok m →
        request_builder key r url data method (.success body) =
          .error (.apiError 400 m) ∧
        request_builder key r url data method (.httpError body) =
          .error (.apiError 400 m)) ∧
    (∀ v, getItem body "IsSuccess" = .ok v → pyTruthy v = true →
        request_builder key r url data method (.success body) = .ok body ∧
        request_builder key r url data method (.httpError body) = .ok body) := by
  obtain ⟨tok, htok⟩ : ∃ tok, make_sign key r data = .ok tok := by
    cases hms : make_sign key r data with
    | error er =>
      rw [hms] at hsign
      exact absurd hsign (by simp [Except.isOk, Except.toBool])
    | ok tok => exact ⟨tok, rfl⟩
  have hbuild : ∀ tr : TransportResult,
      request_builder key r url data method tr = judgeResponse tr.responseBody := by
    intro tr
    unfold request_builder buildRequest
    rw [htok]
    simp only [except_bind_ok, except_pure_bind]
  constructor
  · intro v m hv hfalse hm
    have hjudge : judgeResponse body = .error (.apiError 400 m) := by
      unfold judgeResponse
      rw [hv]
      simp only [except_bind_ok]
      rw [hfalse]
      simp only [Bool.not_false, if_pos]
      rw [hm]
      simp only [except_bind_ok]
    exact ⟨by rw [hbuild]; exact hjudge, by rw [hbuild]; exact hjudge⟩
  · intro v hv htrue
    have hjudge : judgeResponse body = .ok body := by
      unfold judgeResponse
      rw [hv]
      simp only [except_bind_ok]
      rw [htrue]
      simp only [Bool.not_true, if_neg]
      rfl
    exact ⟨by rw [hbuild]; exact hjudge, by rw [hbuild]; exact hjudge⟩

/-- C10 witness: the concrete key, payload and a failing response body. -/
theorem spec_C10_witness :
    ((make_sign bigKey 12345 testPayload).isOk = true) ∧
    getItem respFail "IsSuccess" = .ok (.jbool false) ∧
    pyTruthy (.jbool false) = false ∧
    getItem respFail "Message" = .ok (.jstr "oops") ∧
    (request_builder bigKey 12345 "https://pep.shaparak.ir/Api/v1/Payment/GetToken"
        testPayload "POST" (.success respFail) =
      .error (.apiError 400 (.jstr "oops")) ∧
     request_builder bigKey 12345 "https://pep.shaparak.ir/Api/v1/Payment/GetToken"
        testPayload "POST" (.httpError respFail) =
      .error (.apiError 400 (.jstr "oops"))) :=
  ⟨by rfl, rfl, rfl, rfl,
   (spec_C10 bigKey 12345 "https://pep.shaparak.ir/Api/v1/Payment/GetToken" "POST"
     testPayload respFail (by rfl)).1 (.jbool false) (.jstr "oops") rfl rfl rfl⟩
